import Mathlib

/-!
Verification development for the manju_agent repository.

Part 1 models `utils/chunker.py` (the segment splitter) over `List Char`
(Python strings are sequences of unicode code points, and `len`/slicing
match list length/`take`/`drop`).

Part 2 models the LangGraph workflow (`graph.py`, `state.py`, the agent
node functions in `agents/`) as an explicit step function over a state
record, with the external LLM / console collaborators supplied as oracle
streams.

Part 3 models the multi-segment offset and merge logic of `main.py`.
-/

set_option autoImplicit false

namespace Manju

/-! ### Part 1: utils/chunker.py -/

/-- The whitespace characters removed by Python `str.strip()`
(restricted to the ASCII whitespace actually relevant here). -/
def isPyWs (c : Char) : Bool :=
  c = ' ' ∨ c = '\t' ∨ c = '\n' ∨ c = '\r' ∨ c = '\x0b' ∨ c = '\x0c'

/-- Python `str.strip()`: drop leading and trailing whitespace. -/
def strip (s : List Char) : List Char :=
  ((s.dropWhile isPyWs).reverse.dropWhile isPyWs).reverse

/-- Characters of the section-divider regex class `[-─*═=]`
in `re.split(r"\n[-─*═=]{3,}\n", text)`. -/
def isDivChar (c : Char) : Bool :=
  c = '-' ∨ c = '─' ∨ c = '*' ∨ c = '═' ∨ c = '='

/-- Scanner for `re.split(r"\n[-─*═=]{3,}\n", text)`: a match is a newline,
a maximal run of at least three divider characters, then a newline; the whole
match (trailing newline included) is consumed.  `cur` holds the characters of
the piece being accumulated, in reverse. -/
def secAux : List Char → List Char → List (List Char)
  | [], cur => [cur.reverse]
  | c :: rest, cur =>
    if c = '\n' ∧ 3 ≤ (rest.takeWhile isDivChar).length ∧
        (rest.drop (rest.takeWhile isDivChar).length).head? = some '\n' then
      cur.reverse :: secAux ((rest.drop (rest.takeWhile isDivChar).length).drop 1) []
    else
      secAux rest (c :: cur)
termination_by s _ => s.length
decreasing_by
  · simp only [List.length_cons, List.length_drop]
    omega
  · simp

/-- `re.split(r"\n[-─*═=]{3,}\n", text)`. -/
def splitSections (text : List Char) : List (List Char) :=
  secAux text []

/-- Scanner for `re.split(r"\n\n+", text)`: a match is a maximal run of at
least two newlines. -/
def parasAux : List Char → List Char → List (List Char)
  | [], cur => [cur.reverse]
  | c :: rest, cur =>
    if c = '\n' ∧ rest.head? = some '\n' then
      cur.reverse :: parasAux ((rest.drop 1).dropWhile (fun x => x = '\n')) []
    else
      parasAux rest (c :: cur)
termination_by s _ => s.length
decreasing_by
  · simp only [List.length_cons]
    have h1 : ((rest.drop 1).dropWhile (fun x => x = '\n')).length
        ≤ (rest.drop 1).length :=
      (List.dropWhile_sublist _).length_le
    have h2 : (rest.drop 1).length = rest.length - 1 := List.length_drop 1 rest
    omega
  · simp

/-- `re.split(r"\n\n+", text)`. -/
def splitParas (text : List Char) : List (List Char) :=
  parasAux text []

/-- Sentence-ending characters of `re.split(r"(?<=[。！？…])", text)`. -/
def isSentEnd (c : Char) : Bool :=
  c = '。' ∨ c = '！' ∨ c = '？' ∨ c = '…'

/-- Scanner for `re.split(r"(?<=[。！？…])", text)`: the text is cut after
every sentence-ending character (zero-width split). -/
def sentAux : List Char → List Char → List (List Char)
  | [], cur => [cur.reverse]
  | c :: rest, cur =>
    if isSentEnd c then (c :: cur).reverse :: sentAux rest []
    else sentAux rest (c :: cur)

/-- `re.split(r"(?<=[。！？…])", text)`. -/
def splitSentences (text : List Char) : List (List Char) :=
  sentAux text []

/-- The slice loop `for i in range(0, len(chunk), chunk_size)` producing the
pieces `chunk[i : i + chunk_size]`.  (For `n = 0` the Python loop would raise
`ValueError`; all claims assume a target size of at least 1, and the `n = 0`
equation below is never exercised by them.) -/
def chunksOf (n : Nat) (s : List Char) : List (List Char) :=
  if hs : s = [] then []
  else if hn : n = 0 then [s]
  else s.take n :: chunksOf n (s.drop n)
termination_by s.length
decreasing_by
  have h1 : 0 < s.length := List.length_pos.mpr hs
  have h2 : 0 < n := Nat.pos_of_ne_zero hn
  simp only [List.length_drop]
  omega

/-- The final loop of `_split_by_sentences`: oversized chunks are hard-cut
into `chunk_size`-character slices, the others are kept as they are. -/
def hardCut (chunk_size : Nat) : List (List Char) → List (List Char)
  | [] => []
  | c :: rest =>
    (if chunk_size < c.length then chunksOf chunk_size c else [c]) ++
      hardCut chunk_size rest

/-- The accumulation loop of `_split_by_sentences`: `current` gathers
sentences; when adding the next sentence would overflow `chunk_size` and
`current` is non-empty, `current.strip()` is flushed. -/
def sentLoop (chunk_size : Nat) : List (List Char) → List Char → List (List Char)
  | [], current =>
    if strip current ≠ [] then [strip current] else []
  | s :: rest, current =>
    if chunk_size < current.length + s.length ∧ current ≠ [] then
      strip current :: sentLoop chunk_size rest s
    else
      sentLoop chunk_size rest (current ++ s)

/-- `_split_by_sentences(text, chunk_size)`. -/
def _split_by_sentences (chunk_size : Nat) (text : List Char) : List (List Char) :=
  hardCut chunk_size (sentLoop chunk_size (splitSentences text) [])

/-- `"\n\n".join(parts)`. -/
def joinParas : List (List Char) → List Char
  | [] => []
  | [p] => p
  | p :: rest => p ++ ('\n' :: '\n' :: joinParas rest)

/-- The paragraph-packing loop of `_split_by_paragraphs`: `parts` is the
`current_parts` accumulator (in order) and `curLen` is `current_len`. -/
def paraLoop (chunk_size : Nat) :
    List (List Char) → List (List Char) → Nat → List (List Char)
  | [], parts, _ =>
    if parts ≠ [] then [joinParas parts] else []
  | p :: rest, parts, curLen =>
    let q := strip p
    if q = [] then paraLoop chunk_size rest parts curLen
    else if chunk_size < q.length then
      (if parts ≠ [] then [joinParas parts] else []) ++
        _split_by_sentences chunk_size q ++ paraLoop chunk_size rest [] 0
    else if chunk_size < curLen + q.length + 2 ∧ parts ≠ [] then
      joinParas parts :: paraLoop chunk_size rest [q] q.length
    else
      paraLoop chunk_size rest (parts ++ [q]) (curLen + q.length + 2)

/-- `_split_by_paragraphs(text, chunk_size)`. -/
def _split_by_paragraphs (chunk_size : Nat) (text : List Char) : List (List Char) :=
  paraLoop chunk_size (splitParas text) [] 0

/-- The chunk list built by `split_into_chunks` before the overlap step:
these are the primary (non-overlap-marker) texts of the returned segments. -/
def preChunks (chunk_size : Nat) (text : List Char) : List (List Char) :=
  let t := strip text
  if t.length ≤ chunk_size then [t]
  else
    let sections := splitSections t
    if 1 < sections.length then
      sections.flatMap (fun sec =>
        let s := strip sec
        if s = [] then []
        else if s.length ≤ chunk_size then [s]
        else _split_by_paragraphs chunk_size s)
    else _split_by_paragraphs chunk_size t

/-- The overlap-preview marker `"\n\n【→ 接续段落预览】"` appended before the
first `overlap` characters of the following chunk, then `"..."`. -/
def overlapMarker : List Char := "\n\n【→ 接续段落预览】".toList

/-- The overlap loop of `split_into_chunks`: every non-final chunk gets the
marker plus a preview of the next chunk appended. -/
def addOverlap (overlap : Nat) : List (List Char) → List (List Char)
  | [] => []
  | [c] => [c]
  | c :: next :: rest =>
    (c ++ overlapMarker ++ next.take overlap ++ "...".toList) ::
      addOverlap overlap (next :: rest)

/-- `split_into_chunks(text, chunk_size, overlap)`. -/
def split_into_chunks (chunk_size overlap : Nat) (text : List Char) :
    List (List Char) :=
  let chunks := preChunks chunk_size text
  if 0 < overlap ∧ 1 < chunks.length then addOverlap overlap chunks else chunks

/-! ### Part 2: state.py, graph.py, agents/ — the per-segment workflow -/

/-- state.py `CharacterProfile`. -/
structure CharacterProfile where
  name : String
  name_en : String
  role : String
  appearance : String
  personality : String
  visual_signature : String
  image_keywords : String
deriving DecidableEq, Repr

/-- state.py `CharacterSheet`. -/
structure CharacterSheet where
  main_characters : List CharacterProfile
  world_visual_style : String
  color_palette : String
deriving DecidableEq, Repr

/-- One dialogue entry `{"character": ..., "line": ..., "type": ...}` of a
screenplay scene (`dtype` stands for the `"type"` key). -/
structure Dialogue where
  character : String
  line : String
  dtype : String
deriving DecidableEq, Repr

/-- state.py `ScreenplayScene`. -/
structure ScreenplayScene where
  scene_number : Int
  setting : String
  action : String
  dialogue : List Dialogue
  visual_hint : String
deriving DecidableEq, Repr

/-- state.py `StoryboardScene`. -/
structure StoryboardScene where
  scene_number : Int
  shot_type : String
  image_prompt : String
  camera_movement : String
  visual_notes : String
deriving DecidableEq, Repr

/-- state.py `SoundScene`. -/
structure SoundScene where
  scene_number : Int
  ambience : String
  foley : String
  bgm_mood : String
deriving DecidableEq, Repr

/-- state.py `DirectorFeedback`. -/
structure DirectorFeedback where
  target_agent : String
  scene_number : Int
  issue : String
  instruction : String
deriving DecidableEq, Repr

/-- state.py `WorkflowState` (every key of the TypedDict is populated by
`build_initial_state`, so all fields are total here). -/
structure WorkflowState where
  novel_text : String
  novel_type : String
  character_sheet : Option CharacterSheet
  screenplay_scenes : List ScreenplayScene
  storyboard_scenes : List StoryboardScene
  sound_scenes : List SoundScene
  director_feedback : List DirectorFeedback
  revision_target : Option String
  revision_count : Nat
  skip_human_review : Bool
  human_review_target : String
  is_approved : Bool
  final_script : Option String
deriving DecidableEq, Repr

/-- main.py `build_initial_state`. -/
def build_initial_state (novel_text novel_type : String) : WorkflowState where
  novel_text := novel_text
  novel_type := novel_type
  character_sheet := none
  screenplay_scenes := []
  storyboard_scenes := []
  sound_scenes := []
  director_feedback := []
  revision_target := none
  revision_count := 0
  skip_human_review := false
  human_review_target := "director"
  is_approved := false
  final_script := none

/-- director.py `_determine_primary_revision_target`: fixed priority
screenwriter > storyboard > sound_designer over the set of targeted agents. -/
def _determine_primary_revision_target (feedbacks : List DirectorFeedback) :
    String :=
  if feedbacks.any (fun fb => fb.target_agent = "screenwriter") then "screenwriter"
  else if feedbacks.any (fun fb => fb.target_agent = "storyboard") then "storyboard"
  else if feedbacks.any (fun fb => fb.target_agent = "sound_designer") then
    "sound_designer"
  else "approved"

/-- Python dict lookup `{s["scene_number"]: s for s in l}[num]`: on duplicate
keys the last entry wins, and missing keys give `none`. -/
def sceneIdx {α : Type} (num : α → Int) (l : List α) (n : Int) : Option α :=
  l.reverse.find? (fun s => num s = n)

/-- The dialogue lines rendered by `_format_final_script` (type tag lookup
with default `""`, then the tagged or `character：“line”` form). -/
def dialogueLine (d : Dialogue) : String :=
  let type_tag :=
    if d.dtype = "VO" then "【旁白】"
    else if d.dtype = "OS" then "【内心独白】"
    else ""
  if type_tag ≠ "" then "   " ++ type_tag ++ " " ++ d.line
  else "   " ++ d.character ++ "：“" ++ d.line ++ "”"

/-- The per-scene block of `_format_final_script` (the list of lines appended
for one screenplay scene). -/
def sceneBlock (storyboard_scenes : List StoryboardScene)
    (sound_scenes : List SoundScene) (scene : ScreenplayScene) : List String :=
  let num := scene.scene_number
  ["\n" ++ String.mk (List.replicate 40 '─'),
   "【第 " ++ toString num ++ " 场】  " ++ scene.setting,
   String.mk (List.replicate 40 '─')] ++
  (if scene.action ≠ "" then ["\n📌 动作：" ++ scene.action] else []) ++
  (if scene.dialogue ≠ [] then
    "\n📝 台词：" :: scene.dialogue.map dialogueLine
   else []) ++
  (match sceneIdx (fun s => s.scene_number) storyboard_scenes num with
   | some sb =>
     ["\n🖼️  分镜：" ++ sb.shot_type,
      "   运镜：" ++ sb.camera_movement,
      "   AI绘画Prompt：\n   " ++ sb.image_prompt] ++
     (if sb.visual_notes ≠ "" then ["   视觉备注：" ++ sb.visual_notes] else [])
   | none => []) ++
  (match sceneIdx (fun s => s.scene_number) sound_scenes num with
   | some sd =>
     ["\n🎵 音效：",
      "   环境音：" ++ sd.ambience,
      "   动作音效：" ++ sd.foley,
      "   BGM方向：" ++ sd.bgm_mood]
   | none => []) ++
  (if scene.visual_hint ≠ "" then ["\n💡 视觉备忘录：" ++ scene.visual_hint] else [])

/-- director.py `_format_final_script`: renders the three scene sequences as
the final human-readable script. -/
def _format_final_script (state : WorkflowState) : String :=
  let eq60 := String.mk (List.replicate 60 '=')
  let lines :=
    [eq60, "漫剧剧本 · 最终版", "类型：" ++ state.novel_type, eq60] ++
    state.screenplay_scenes.flatMap
      (sceneBlock state.storyboard_scenes state.sound_scenes) ++
    ["\n" ++ eq60,
     "剧本生成完毕，共 " ++ toString state.screenplay_scenes.length ++ " 个场景",
     eq60]
  String.intercalate "\n" lines

/-- The structured outcome of the director LLM call followed by
`_extract_json_from_response`: either a parse failure (the raised
`ValueError` message) or the parsed decision dict (`decision` defaulting to
`"APPROVE"` when the key is missing, `feedbacks` defaulting to `[]`). -/
inductive DirectorResponse where
  | parseFail (msg : String)
  | parsed (decision : String) (feedbacks : List DirectorFeedback)
deriving DecidableEq, Repr

/-- director.py `director_node`, with the LLM+parse collaborator outcome `r`
passed explicitly.  The returned dict is merged into the state (fields not
returned stay unchanged). -/
def director_node (maxRevisions : Nat) (r : DirectorResponse)
    (state : WorkflowState) : WorkflowState :=
  let revision_count := state.revision_count + 1
  if maxRevisions < revision_count then
    { state with
      revision_target := some "approved"
      is_approved := true
      revision_count := revision_count
      director_feedback := []
      final_script := some (_format_final_script state) }
  else
    match r with
    | .parseFail _ =>
      { state with
        revision_target := some "approved"
        is_approved := true
        revision_count := revision_count
        director_feedback := []
        final_script := some (_format_final_script state) }
    | .parsed decision feedbacks =>
      if decision = "APPROVE" then
        { state with
          revision_target := some "approved"
          is_approved := true
          revision_count := revision_count
          director_feedback := []
          final_script := some (_format_final_script state) }
      else
        { state with
          revision_target := some (_determine_primary_revision_target feedbacks)
          is_approved := false
          revision_count := revision_count
          director_feedback := feedbacks }

/-- screenwriter.py `screenwriter_node` with the LLM+parse collaborator
outcome passed explicitly: parsed scenes, or the degraded placeholder scene
embedding the `ValueError` message. -/
def screenwriter_node (r : Except String (List ScreenplayScene))
    (state : WorkflowState) : WorkflowState :=
  match r with
  | .ok scenes => { state with screenplay_scenes := scenes }
  | .error e =>
    { state with
      screenplay_scenes :=
        [{ scene_number := 0
           setting := "❌ 编剧输出解析失败"
           action := e
           dialogue := []
           visual_hint := "请检查 LLM 的响应格式" }] }

/-- storyboard.py `storyboard_node` with the collaborator outcome passed
explicitly. -/
def storyboard_node (r : Except String (List StoryboardScene))
    (state : WorkflowState) : WorkflowState :=
  match r with
  | .ok scenes => { state with storyboard_scenes := scenes }
  | .error e =>
    { state with
      storyboard_scenes :=
        [{ scene_number := 0
           shot_type := "❌ 分镜师输出解析失败"
           image_prompt := e
           camera_movement := ""
           visual_notes := "请检查 LLM 的响应格式" }] }

/-- sound_designer.py `sound_designer_node` with the collaborator outcome
passed explicitly. -/
def sound_designer_node (r : Except String (List SoundScene))
    (state : WorkflowState) : WorkflowState :=
  match r with
  | .ok scenes => { state with sound_scenes := scenes }
  | .error e =>
    { state with
      sound_scenes :=
        [{ scene_number := 0
           ambience := "❌ 音效师输出解析失败"
           foley := e
           bgm_mood := "请检查 LLM 的响应格式" }] }

/-- character_extractor.py `character_extractor_node` with the collaborator
outcome passed explicitly; a parse failure yields the empty fallback sheet. -/
def character_extractor_node (r : Except String CharacterSheet)
    (state : WorkflowState) : WorkflowState :=
  match r with
  | .ok sheet => { state with character_sheet := some sheet }
  | .error _ =>
    { state with
      character_sheet := some
        { main_characters := []
          world_visual_style := "未能自动提取，请参考原文"
          color_palette := "" } }

/-- The console answers consumed by `_get_user_decision` in
human_reviewer.py: the menu choice and, for a non-`"0"` choice, the issue,
instruction and scene-number answers. -/
structure HumanDecision where
  choice : String
  issue : String
  instruction : String
  scene_number : Int
deriving DecidableEq, Repr

/-- human_reviewer.py `_get_user_decision`: choice `"0"` approves; choices
`"1"`/`"2"`/`"3"` target an agent with a single feedback item; any other
choice falls back to `"director"`. -/
def _get_user_decision (d : HumanDecision) : String × List DirectorFeedback :=
  if d.choice = "0" then ("director", [])
  else
    let target :=
      if d.choice = "1" then "screenwriter"
      else if d.choice = "2" then "storyboard"
      else if d.choice = "3" then "sound_designer"
      else "director"
    (target,
     [{ target_agent := target
        scene_number := d.scene_number
        issue := d.issue
        instruction := d.instruction }])

/-- human_reviewer.py `human_reviewer_node`, with the `HUMAN_REVIEW` config
flag and the console decision passed explicitly. -/
def human_reviewer_node (humanReview : Bool) (d : HumanDecision)
    (state : WorkflowState) : WorkflowState :=
  if ¬humanReview then
    { state with human_review_target := "director", skip_human_review := false }
  else if state.skip_human_review then
    { state with human_review_target := "director", skip_human_review := true }
  else
    let td := _get_user_decision d
    if td.1 = "director" then
      { state with
        human_review_target := "director"
        skip_human_review := false
        director_feedback := [] }
    else
      { state with
        human_review_target := td.1
        skip_human_review := true
        director_feedback := td.2 }

/-- The nodes of the LangGraph graph built in graph.py, plus the terminal
`END` state. -/
inductive Node where
  | character_extractor
  | screenwriter
  | storyboard
  | sound_designer
  | human_reviewer
  | director
  | terminal
deriving DecidableEq, Repr

/-- graph.py `route_after_sound_designer` composed with the conditional-edge
mapping: to the director unless `HUMAN_REVIEW` is on and the checkpoint has
not been consumed. -/
def route_after_sound_designer (humanReview : Bool) (state : WorkflowState) :
    Node :=
  if ¬humanReview ∨ state.skip_human_review then .director else .human_reviewer

/-- graph.py `route_after_human_reviewer` composed with the conditional-edge
mapping.  The `human_review_target` field only ever holds one of the four
mapped names; the final catch-all mirrors the dict default `"director"`. -/
def route_after_human_reviewer (state : WorkflowState) : Node :=
  if state.human_review_target = "screenwriter" then .screenwriter
  else if state.human_review_target = "storyboard" then .storyboard
  else if state.human_review_target = "sound_designer" then .sound_designer
  else .director

/-- graph.py `route_after_director` composed with the conditional-edge
mapping: `"approved"` ends the run, otherwise the named agent is re-run,
with the `else: return "screenwriter"` fallback of the source. -/
def route_after_director (state : WorkflowState) : Node :=
  match state.revision_target with
  | some t =>
    if t = "approved" then .terminal
    else if t = "screenwriter" then .screenwriter
    else if t = "storyboard" then .storyboard
    else if t = "sound_designer" then .sound_designer
    else .screenwriter
  | none => .screenwriter

/-- The immutable configuration consumed by one run: `MAX_REVISIONS` and
`HUMAN_REVIEW` from config.py. -/
structure Config where
  maxRevisions : Nat
  humanReview : Bool

/-- The external collaborators of one run, as oracle streams indexed by the
global step number: each node reads its LLM/parse outcome (or console
decision) for the step at which it executes. -/
structure Scenario where
  extractorResp : Nat → Except String CharacterSheet
  screenwriterResp : Nat → Except String (List ScreenplayScene)
  storyboardResp : Nat → Except String (List StoryboardScene)
  soundResp : Nat → Except String (List SoundScene)
  humanResp : Nat → HumanDecision
  directorResp : Nat → DirectorResponse

/-- Run one node's function on the state (LangGraph merges the returned
partial update; the node functions above already perform that merge). -/
def runNode (cfg : Config) (sc : Scenario) (n : Nat) :
    Node → WorkflowState → WorkflowState
  | .character_extractor, s => character_extractor_node (sc.extractorResp n) s
  | .screenwriter, s => screenwriter_node (sc.screenwriterResp n) s
  | .storyboard, s => storyboard_node (sc.storyboardResp n) s
  | .sound_designer, s => sound_designer_node (sc.soundResp n) s
  | .human_reviewer, s => human_reviewer_node cfg.humanReview (sc.humanResp n) s
  | .director, s => director_node cfg.maxRevisions (sc.directorResp n) s
  | .terminal, s => s

/-- The edges of graph.py: fixed edges for the linear chain, routers after
sound_designer, human_reviewer and director (routers read the post-node
state, as LangGraph conditional edges do). -/
def nextNode (cfg : Config) : Node → WorkflowState → Node
  | .character_extractor, _ => .screenwriter
  | .screenwriter, _ => .storyboard
  | .storyboard, _ => .sound_designer
  | .sound_designer, s => route_after_sound_designer cfg.humanReview s
  | .human_reviewer, s => route_after_human_reviewer s
  | .director, s => route_after_director s
  | .terminal, _ => .terminal

/-- One engine step at global step number `n`: run the current node, then
route.  The terminal state is absorbing. -/
def stepFn (cfg : Config) (sc : Scenario) (n : Nat) :
    Node × WorkflowState → Node × WorkflowState
  | (.terminal, s) => (.terminal, s)
  | (node, s) =>
    let t := runNode cfg sc n node s
    (nextNode cfg node t, t)

/-- The execution of one segment run: node and state after `n` engine steps,
starting at the entry point `character_extractor` on the initial state. -/
def execN (cfg : Config) (sc : Scenario) (text ty : String) :
    Nat → Node × WorkflowState
  | 0 => (.character_extractor, build_initial_state text ty)
  | n + 1 => stepFn cfg sc n (execN cfg sc text ty n)

/-- The node the run is at after `n` steps. -/
def nodeAt (cfg : Config) (sc : Scenario) (text ty : String) (n : Nat) : Node :=
  (execN cfg sc text ty n).1

/-- The workflow state after `n` steps. -/
def stAt (cfg : Config) (sc : Scenario) (text ty : String) (n : Nat) :
    WorkflowState :=
  (execN cfg sc text ty n).2

/-- Number of steps among the first `N` at which the run is at the director
(ReviewGate) node — i.e. the number of director visits in those steps. -/
def directorVisits (cfg : Config) (sc : Scenario) (text ty : String) (N : Nat) :
    Nat :=
  ((List.range N).filter (fun n => nodeAt cfg sc text ty n = Node.director)).length

/-! ### Part 3: main.py — per-segment offsetting and merging -/

/-- The offset post-processing of `run_single_chunk`: when `scene_offset > 0`,
add it to every `scene_number` of all three scene sequences of the completed
segment state. -/
def applySceneOffset (scene_offset : Int) (state : WorkflowState) :
    WorkflowState :=
  if 0 < scene_offset then
    { state with
      screenplay_scenes := state.screenplay_scenes.map
        (fun s => { s with scene_number := s.scene_number + scene_offset })
      storyboard_scenes := state.storyboard_scenes.map
        (fun s => { s with scene_number := s.scene_number + scene_offset })
      sound_scenes := state.sound_scenes.map
        (fun s => { s with scene_number := s.scene_number + scene_offset }) }
  else state

/-- The driving loop of `main`: process the completed segment states in
order, starting at `scene_offset`, and advance the offset after each segment
by the length of its (offset) screenplay scene list. -/
def offsetRun (scene_offset : Int) : List WorkflowState → List WorkflowState
  | [] => []
  | s :: rest =>
    let t := applySceneOffset scene_offset s
    t :: offsetRun (scene_offset + (t.screenplay_scenes.length : Int)) rest

/-- The running offset `main` has accumulated before segment `i`: the sum of
the screenplay scene counts of the earlier segments. -/
def offAt (states : List WorkflowState) (i : Nat) : Int :=
  (((states.take i).map (fun s => s.screenplay_scenes.length)).sum : Nat)

/-- main.py `merge_chunk_results`: concatenate the three scene sequences of
all chunk states in order, take the character sheet of the first chunk, and
re-render the final script from the merged state. -/
def merge_chunk_results (chunk_states : List WorkflowState)
    (novel_type : String) : WorkflowState :=
  let merged : WorkflowState :=
    { novel_text :=
        String.intercalate "\n\n" (chunk_states.map (fun s => s.novel_text))
      novel_type := novel_type
      character_sheet := (chunk_states.head?.map
        (fun s => s.character_sheet)).getD none
      screenplay_scenes := chunk_states.flatMap (fun s => s.screenplay_scenes)
      storyboard_scenes := chunk_states.flatMap (fun s => s.storyboard_scenes)
      sound_scenes := chunk_states.flatMap (fun s => s.sound_scenes)
      director_feedback := []
      revision_target := some "approved"
      revision_count := ((chunk_states.map (fun s => s.revision_count)).foldl
        max 0)
      skip_human_review := true
      human_review_target := "director"
      is_approved := true
      final_script := none }
  { merged with final_script := some (_format_final_script merged) }

/-- The scene numbers of a screenplay scene list, in order. -/
def screenplayNums (l : List ScreenplayScene) : List Int :=
  l.map (fun s => s.scene_number)

/-- The scene numbers of a storyboard scene list, in order. -/
def storyboardNums (l : List StoryboardScene) : List Int :=
  l.map (fun s => s.scene_number)

/-- The scene numbers of a sound scene list, in order. -/
def soundNums (l : List SoundScene) : List Int :=
  l.map (fun s => s.scene_number)

/-- The consecutive integers `a, a+1, ..., a+n-1`. -/
def numsFrom (a : Int) : Nat → List Int
  | 0 => []
  | n + 1 => a :: numsFrom (a + 1) n

/-! ### Termination measure and concrete fixtures -/

/-- Distance of a node from the director in the fixed forward chain
(used only by the termination measure). -/
def nodeRank : Node → Nat
  | .character_extractor => 5
  | .screenwriter => 4
  | .storyboard => 3
  | .sound_designer => 2
  | .human_reviewer => 1
  | .director => 0
  | .terminal => 0

/-- Termination measure of a run configuration: iteration budget left
(weighted), the unconsumed human checkpoint (weighted), and the distance to
the director. Every non-terminal engine step either reaches Terminal or
strictly decreases this measure. -/
def runMeasure (C : Nat) (p : Node × WorkflowState) : Nat :=
  10 * (C + 1 - min p.2.revision_count (C + 1)) +
    (if p.2.skip_human_review then 0 else 5) + nodeRank p.1

/-- A sample screenplay scene used in concrete runs. -/
def sampleScreenplayScene : ScreenplayScene :=
  { scene_number := 1, setting := "旧庙", action := "推门而入", dialogue := [],
    visual_hint := "月光" }

/-- A sample storyboard scene used in concrete runs. -/
def sampleStoryboardScene : StoryboardScene :=
  { scene_number := 1, shot_type := "全景", image_prompt := "temple",
    camera_movement := "推近", visual_notes := "冷色" }

/-- A sample sound scene used in concrete runs. -/
def sampleSoundScene : SoundScene :=
  { scene_number := 1, ambience := "风声", foley := "门轴", bgm_mood := "低沉" }

/-- A sample character sheet used in concrete runs. -/
def sampleSheet : CharacterSheet :=
  { main_characters := [], world_visual_style := "水墨", color_palette := "ink" }

/-- A feedback item rejecting the screenwriter. -/
def fbScreenwriter : DirectorFeedback :=
  { target_agent := "screenwriter", scene_number := 1, issue := "剧情偏离",
    instruction := "回到原文" }

/-- A feedback item whose target is not one of the three draft agents. -/
def fbDirectorTarget : DirectorFeedback :=
  { target_agent := "director", scene_number := -1, issue := "全局",
    instruction := "再审" }

/-- A concrete scenario: all content calls succeed with the samples and the
director always rejects, naming the screenwriter. -/
def rejectScenario : Scenario where
  extractorResp := fun _ => .ok sampleSheet
  screenwriterResp := fun _ => .ok [sampleScreenplayScene]
  storyboardResp := fun _ => .ok [sampleStoryboardScene]
  soundResp := fun _ => .ok [sampleSoundScene]
  humanResp := fun _ =>
    { choice := "0", issue := "", instruction := "", scene_number := -1 }
  directorResp := fun _ => .parsed "REVISE" [fbScreenwriter]

/-- Like `rejectScenario`, but the rejecting review carries an empty
feedback list. -/
def emptyRejectScenario : Scenario :=
  { rejectScenario with directorResp := fun _ => .parsed "REVISE" [] }

/-- Like `rejectScenario`, but the rejecting review names only a target
that is none of the three draft agents. -/
def misdirectedRejectScenario : Scenario :=
  { rejectScenario with
    directorResp := fun _ => .parsed "REVISE" [fbDirectorTarget] }

/-- Like `rejectScenario`, but the director approves at once. -/
def approveScenario : Scenario :=
  { rejectScenario with directorResp := fun _ => .parsed "APPROVE" [] }

/-- A scenario for a run with the human checkpoint enabled: the human hands
one feedback item to the screenwriter, the director then approves. -/
def humanRedirectScenario : Scenario :=
  { rejectScenario with
    humanResp := fun _ =>
      { choice := "1", issue := "开场太平", instruction := "加冲突",
        scene_number := -1 }
    directorResp := fun _ => .parsed "APPROVE" [] }

/-- The all-parse-failure scenario: every delegated call's structured
extraction fails with message `e`. -/
def allFailScenario (e : String) : Scenario where
  extractorResp := fun _ => .error e
  screenwriterResp := fun _ => .error e
  storyboardResp := fun _ => .error e
  soundResp := fun _ => .error e
  humanResp := fun _ =>
    { choice := "0", issue := "", instruction := "", scene_number := -1 }
  directorResp := fun _ => .parseFail e

/-- The default configuration: `MAX_REVISIONS = 3`, `HUMAN_REVIEW = false`. -/
def cfgAuto : Config := { maxRevisions := 3, humanReview := false }

/-- The configuration with the human checkpoint enabled. -/
def cfgHuman : Config := { maxRevisions := 3, humanReview := true }

/-- A completed segment state with two screenplay scenes numbered 1, 2
(and matching storyboard/sound scenes). -/
def segStateA : WorkflowState :=
  { build_initial_state "甲" "仙侠/玄幻" with
    screenplay_scenes :=
      [sampleScreenplayScene, { sampleScreenplayScene with scene_number := 2 }]
    storyboard_scenes :=
      [sampleStoryboardScene, { sampleStoryboardScene with scene_number := 2 }]
    sound_scenes :=
      [sampleSoundScene, { sampleSoundScene with scene_number := 2 }]
    revision_target := some "approved"
    revision_count := 1
    is_approved := true }

/-- A completed segment state with one screenplay scene numbered 1. -/
def segStateB : WorkflowState :=
  { build_initial_state "乙" "仙侠/玄幻" with
    screenplay_scenes := [sampleScreenplayScene]
    storyboard_scenes := [sampleStoryboardScene]
    sound_scenes := [sampleSoundScene]
    revision_target := some "approved"
    revision_count := 2
    is_approved := true }

/-! ### Lemmas about the chunker -/

theorem chunksOf_length_le (n : Nat) (hn : 1 ≤ n) (s : List Char) :
    ∀ c ∈ chunksOf n s, c.length ≤ n := by
  induction s using chunksOf.induct n with
  | case1 => rw [chunksOf, dif_pos rfl]; simp
  | case2 x hx h0 => omega
  | case3 x hx h0 ih =>
    rw [chunksOf, dif_neg hx, dif_neg h0]
    intro c hc
    rcases List.mem_cons.mp hc with h | h
    · subst h
      simpa using List.length_take_le n x
    · exact ih c h

theorem chunksOf_flatten (n : Nat) (s : List Char) :
    (chunksOf n s).flatten = s := by
  induction s using chunksOf.induct n with
  | case1 => rw [chunksOf, dif_pos rfl]; rfl
  | case2 x hx h0 =>
    rw [chunksOf, dif_neg hx, dif_pos h0]
    simp
  | case3 x hx h0 ih =>
    rw [chunksOf, dif_neg hx, dif_neg h0]
    simp [ih, List.take_append_drop]

theorem hardCut_length_le (size : Nat) (hsz : 1 ≤ size)
    (l : List (List Char)) : ∀ c ∈ hardCut size l, c.length ≤ size := by
  induction l with
  | nil => intro c hc; simp [hardCut] at hc
  | cons a rest ih =>
    intro c hc
    rw [hardCut] at hc
    rcases List.mem_append.mp hc with h | h
    · by_cases ha : size < a.length
      · rw [if_pos ha] at h
        exact chunksOf_length_le size hsz a c h
      · rw [if_neg ha] at h
        simp at h
        subst h
        omega
    · exact ih c h

theorem hardCut_flatten (size : Nat) (l : List (List Char)) :
    (hardCut size l).flatten = l.flatten := by
  induction l with
  | nil => rfl
  | cons a rest ih =>
    rw [hardCut]
    by_cases ha : size < a.length
    · simp [if_pos ha, ih, chunksOf_flatten]
    · simp [if_neg ha, ih]

theorem _split_by_sentences_length_le (size : Nat) (hsz : 1 ≤ size)
    (text : List Char) : ∀ c ∈ _split_by_sentences size text, c.length ≤ size :=
  hardCut_length_le size hsz _

theorem joinParas_singleton (p : List Char) : joinParas [p] = p := rfl

theorem joinParas_append_singleton (parts : List (List Char)) (p : List Char)
    (h : parts ≠ []) :
    joinParas (parts ++ [p]) = joinParas parts ++ ('\n' :: '\n' :: p) := by
  induction parts with
  | nil => exact absurd rfl h
  | cons a rest ih =>
    cases rest with
    | nil => rfl
    | cons b rest2 =>
      have h2 := ih (by simp)
      simp only [List.cons_append, List.append_eq, joinParas] at h2 ⊢
      rw [h2]
      simp

theorem paraLoop_length_le (size : Nat) (hsz : 1 ≤ size) :
    ∀ (ps parts : List (List Char)) (curLen : Nat),
      (parts = [] → curLen = 0) →
      (parts ≠ [] →
        (joinParas parts).length ≤ size ∧ (joinParas parts).length ≤ curLen) →
      ∀ c ∈ paraLoop size ps parts curLen, c.length ≤ size := by
  intro ps
  induction ps with
  | nil =>
    intro parts curLen h0 hinv c hc
    rw [paraLoop] at hc
    by_cases hp : parts ≠ []
    · rw [if_pos hp] at hc
      simp at hc
      subst hc
      exact (hinv hp).1
    · rw [if_neg hp] at hc
      simp at hc
  | cons p rest ih =>
    intro parts curLen h0 hinv c hc
    simp only [paraLoop] at hc
    by_cases hq : strip p = []
    · rw [if_pos hq] at hc
      exact ih parts curLen h0 hinv c hc
    · rw [if_neg hq] at hc
      by_cases hbig : size < (strip p).length
      · rw [if_pos hbig] at hc
        rcases List.mem_append.mp hc with hc | hc
        · rcases List.mem_append.mp hc with hc | hc
          · by_cases hp : parts ≠ []
            · rw [if_pos hp] at hc
              simp at hc
              subst hc
              exact (hinv hp).1
            · rw [if_neg hp] at hc
              simp at hc
          · exact _split_by_sentences_length_le size hsz _ c hc
        · exact ih [] 0 (fun _ => rfl) (fun h => absurd rfl h) c hc
      · rw [if_neg hbig] at hc
        by_cases hfl : size < curLen + (strip p).length + 2 ∧ parts ≠ []
        · rw [if_pos hfl] at hc
          rcases List.mem_cons.mp hc with hc | hc
          · subst hc
            exact (hinv hfl.2).1
          · refine ih [strip p] (strip p).length (by simp) ?_ c hc
            intro _
            rw [joinParas_singleton]
            omega
        · rw [if_neg hfl] at hc
          refine ih (parts ++ [strip p]) (curLen + (strip p).length + 2)
            (by simp) ?_ c hc
          intro _
          by_cases hp : parts = []
          · subst hp
            rw [List.nil_append, joinParas_singleton]
            have := h0 rfl
            omega
          · rw [joinParas_append_singleton parts _ hp]
            have h1 := hinv hp
            have h2 : ¬ size < curLen + (strip p).length + 2 := by
              intro hlt
              exact hfl ⟨hlt, hp⟩
            simp only [List.length_append, List.length_cons]
            omega

theorem _split_by_paragraphs_length_le (size : Nat) (hsz : 1 ≤ size)
    (text : List Char) :
    ∀ c ∈ _split_by_paragraphs size text, c.length ≤ size :=
  paraLoop_length_le size hsz (splitParas text) [] 0 (fun _ => rfl)
    (fun h => absurd rfl h)

theorem preChunks_length_le (size : Nat) (hsz : 1 ≤ size) (text : List Char) :
    ∀ c ∈ preChunks size text, c.length ≤ size := by
  intro c hc
  simp only [preChunks] at hc
  by_cases hshort : (strip text).length ≤ size
  · rw [if_pos hshort] at hc
    simp at hc
    subst hc
    exact hshort
  · rw [if_neg hshort] at hc
    by_cases hsec : 1 < (splitSections (strip text)).length
    · rw [if_pos hsec] at hc
      rcases List.mem_flatMap.mp hc with ⟨sec, _, hmem⟩
      by_cases h1 : strip sec = []
      · rw [if_pos h1] at hmem
        simp at hmem
      · rw [if_neg h1] at hmem
        by_cases h2 : (strip sec).length ≤ size
        · rw [if_pos h2] at hmem
          simp at hmem
          subst hmem
          exact h2
        · rw [if_neg h2] at hmem
          exact _split_by_paragraphs_length_le size hsz _ c hmem
    · rw [if_neg hsec] at hc
      exact _split_by_paragraphs_length_le size hsz _ c hc

theorem addOverlap_prefix (ov : Nat) (l : List (List Char)) :
    ∀ c ∈ addOverlap ov l, ∃ p ∈ l, p <+: c := by
  induction l with
  | nil =>
    intro c hc
    rw [addOverlap] at hc
    exact absurd hc (List.not_mem_nil c)
  | cons a rest ih =>
    cases rest with
    | nil =>
      intro c hc
      rw [addOverlap] at hc
      have hca : c = a := List.mem_singleton.mp hc
      subst hca
      exact ⟨c, List.mem_singleton_self c, List.prefix_refl c⟩
    | cons b rest2 =>
      intro c hc
      rw [addOverlap] at hc
      rcases List.mem_cons.mp hc with hc | hc
      · subst hc
        refine ⟨a, List.mem_cons_self a _, ?_⟩
        exact ⟨overlapMarker ++ b.take ov ++ "...".toList, by simp⟩
      · rcases ih c hc with ⟨p, hp, hpre⟩
        exact ⟨p, List.mem_cons_of_mem a hp, hpre⟩

theorem split_into_chunks_prefix (size ov : Nat) (text : List Char) :
    ∀ c ∈ split_into_chunks size ov text,
      ∃ p ∈ preChunks size text, p <+: c := by
  intro c hc
  simp only [split_into_chunks] at hc
  by_cases h : 0 < ov ∧ 1 < (preChunks size text).length
  · rw [if_pos h] at hc
    exact addOverlap_prefix ov _ c hc
  · rw [if_neg h] at hc
    exact ⟨c, hc, List.prefix_refl c⟩

theorem dropWhile_eq_self_of_no_sat {p : Char → Bool} {s : List Char}
    (h : ∀ c ∈ s, p c = false) : s.dropWhile p = s := by
  cases s with
  | nil => rfl
  | cons a rest =>
    rw [List.dropWhile_cons, h a (List.mem_cons_self a rest)]
    simp

theorem strip_eq_self_of_no_ws {s : List Char}
    (h : ∀ c ∈ s, isPyWs c = false) : strip s = s := by
  rw [strip, dropWhile_eq_self_of_no_sat h,
    dropWhile_eq_self_of_no_sat (fun c hc => h c (List.mem_reverse.mp hc)),
    List.reverse_reverse]

theorem secAux_of_no_nl : ∀ (s cur : List Char), (∀ c ∈ s, ¬ c = '\n') →
    secAux s cur = [cur.reverse ++ s] := by
  intro s
  induction s with
  | nil => intro cur _; rw [secAux]; simp
  | cons a rest ih =>
    intro cur h
    rw [secAux, if_neg]
    · rw [ih (a :: cur) (fun c hc => h c (List.mem_cons_of_mem a hc))]
      simp
    · intro hcond
      exact h a (List.mem_cons_self a rest) hcond.1

theorem parasAux_of_no_nl : ∀ (s cur : List Char), (∀ c ∈ s, ¬ c = '\n') →
    parasAux s cur = [cur.reverse ++ s] := by
  intro s
  induction s with
  | nil => intro cur _; rw [parasAux]; simp
  | cons a rest ih =>
    intro cur h
    rw [parasAux, if_neg]
    · rw [ih (a :: cur) (fun c hc => h c (List.mem_cons_of_mem a hc))]
      simp
    · intro hcond
      exact h a (List.mem_cons_self a rest) hcond.1

theorem sentAux_flatten : ∀ (s cur : List Char),
    (sentAux s cur).flatten = cur.reverse ++ s := by
  intro s
  induction s with
  | nil => intro cur; rw [sentAux]; simp
  | cons a rest ih =>
    intro cur
    rw [sentAux]
    by_cases h : isSentEnd a = true
    · rw [if_pos h]
      simp [ih]
    · rw [if_neg h]
      rw [ih (a :: cur)]
      simp

theorem sentLoop_flatten (size : Nat) :
    ∀ (sents : List (List Char)) (current : List Char),
      (∀ c ∈ current, isPyWs c = false) →
      (∀ s ∈ sents, ∀ c ∈ s, isPyWs c = false) →
      (sentLoop size sents current).flatten = current ++ sents.flatten := by
  intro sents
  induction sents with
  | nil =>
    intro current hcur _
    rw [sentLoop]
    by_cases h : strip current ≠ []
    · rw [if_pos h]
      simp [strip_eq_self_of_no_ws hcur]
    · rw [if_neg h]
      push_neg at h
      rw [strip_eq_self_of_no_ws hcur] at h
      simp [h]
  | cons s rest ih =>
    intro current hcur hall
    rw [sentLoop]
    have hs : ∀ c ∈ s, isPyWs c = false :=
      hall s (List.mem_cons_self s rest)
    have hrest : ∀ x ∈ rest, ∀ c ∈ x, isPyWs c = false :=
      fun x hx => hall x (List.mem_cons_of_mem s hx)
    by_cases h : size < current.length + s.length ∧ current ≠ []
    · rw [if_pos h]
      simp only [List.flatten_cons, strip_eq_self_of_no_ws hcur, ih s hs hrest]
    · rw [if_neg h]
      rw [ih (current ++ s) (fun c hc => by
        rcases List.mem_append.mp hc with hc | hc
        · exact hcur c hc
        · exact hs c hc) hrest]
      simp

theorem _split_by_sentences_flatten (size : Nat) (text : List Char)
    (h : ∀ c ∈ text, isPyWs c = false) :
    (_split_by_sentences size text).flatten = text := by
  have h1 : ∀ c ∈ ([] : List Char), isPyWs c = false := by
    intro c hc
    simp at hc
  have h2 : ∀ s ∈ splitSentences text, ∀ c ∈ s, isPyWs c = false := by
    intro s hs c hc
    refine h c ?_
    have hmem : c ∈ (splitSentences text).flatten :=
      List.mem_flatten.mpr ⟨s, hs, hc⟩
    rw [splitSentences, sentAux_flatten] at hmem
    simpa using hmem
  rw [_split_by_sentences, hardCut_flatten,
    sentLoop_flatten size (splitSentences text) [] h1 h2,
    splitSentences, sentAux_flatten]
  simp

theorem preChunks_flatten_of_no_ws (size : Nat) (hsz : 1 ≤ size)
    (text : List Char) (hws : ∀ c ∈ text, isPyWs c = false) :
    (preChunks size text).flatten = text := by
  have hstrip : strip text = text := strip_eq_self_of_no_ws hws
  have hnl : ∀ c ∈ text, ¬ c = '\n' := by
    intro c hc heq
    have hw := hws c hc
    subst heq
    simp [isPyWs] at hw
  simp only [preChunks, hstrip]
  by_cases hshort : text.length ≤ size
  · rw [if_pos hshort]
    simp
  · rw [if_neg hshort]
    have hsec : splitSections text = [text] := by
      rw [splitSections, secAux_of_no_nl text [] hnl]
      simp
    have hpar : splitParas text = [text] := by
      rw [splitParas, parasAux_of_no_nl text [] hnl]
      simp
    rw [hsec]
    simp only [List.length_singleton]
    rw [if_neg (by omega), _split_by_paragraphs, hpar]
    have htne : ¬ text = [] := by
      intro h
      rw [h] at hshort
      simp at hshort
    simp only [paraLoop, hstrip, if_neg htne]
    rw [if_pos (by omega)]
    simp [_split_by_sentences_flatten size text hws]

/-- C10: for every input text and every target size ≥ 1, each chunk built
by the splitter before the overlap step (the segment's primary text) has
length at most the target size, and every returned segment extends such a
bounded primary chunk (the overlap step only appends the marker and preview
after it); the hard character cut (`chunksOf` inside `hardCut`) enforces
this bound even for a single oversized sentence. -/
theorem primary_chunk_length_bound (size ov : Nat) (text : List Char)
    (hsz : 1 ≤ size) :
    (∀ p ∈ preChunks size text, p.length ≤ size) ∧
    (∀ c ∈ split_into_chunks size ov text,
      ∃ p ∈ preChunks size text, p.length ≤ size ∧ p <+: c) := by
  constructor
  · exact preChunks_length_le size hsz text
  · intro c hc
    rcases split_into_chunks_prefix size ov text c hc with ⟨p, hp, hpre⟩
    exact ⟨p, hp, preChunks_length_le size hsz text p hp, hpre⟩

theorem primary_chunk_length_bound_witness :
    (['a'] : List Char) ∈ preChunks 1 ['a', 'b'] ∧
    (['a'] : List Char).length ≤ 1 := by
  have hmem : (['a'] : List Char) ∈ preChunks 1 ['a', 'b'] := by
    simp +decide [preChunks, strip, splitSections, secAux, isPyWs, isDivChar,
      splitParas, parasAux, _split_by_paragraphs, paraLoop,
      _split_by_sentences, splitSentences, sentAux, isSentEnd, sentLoop,
      hardCut, chunksOf, joinParas]
  exact ⟨hmem, (primary_chunk_length_bound 1 1 ['a', 'b'] (by norm_num)).1
    ['a'] hmem⟩

/-- C5 counterexample: for the input `"a\n\n\nb"` and target size 1 the
splitter returns the segments `"a"` and `"b"` (with no overlap marker, as
overlap is 0), whose concatenation `"ab"` is not the original input — the
paragraph split discards the blank-line run, so the round-trip fails. -/
theorem splitter_roundtrip_counterexample :
    split_into_chunks 1 0 ['a', '\n', '\n', '\n', 'b'] = [['a'], ['b']] ∧
    (split_into_chunks 1 0 ['a', '\n', '\n', '\n', 'b']).flatten ≠
      ['a', '\n', '\n', '\n', 'b'] := by
  have h : split_into_chunks 1 0 ['a', '\n', '\n', '\n', 'b'] =
      [['a'], ['b']] := by
    simp +decide [split_into_chunks, preChunks, strip, splitSections, secAux,
      isPyWs, isDivChar, splitParas, parasAux, _split_by_paragraphs, paraLoop,
      _split_by_sentences, splitSentences, sentAux, isSentEnd, sentLoop,
      hardCut, chunksOf, joinParas]
  refine ⟨h, ?_⟩
  rw [h]
  decide

/-- C5 (amended): for every input text containing no whitespace characters
and every target size ≥ 1, concatenating the primary (pre-overlap) texts of
all segments, in order, reproduces the original input exactly; with overlap
0 the splitter returns exactly these primary texts.  (For general inputs
the splitter trims the ends, collapses blank-line runs, drops divider
lines, and strips sentence-chunk boundaries, so the exact round-trip
fails — see the counterexample.) -/
theorem splitter_roundtrip_no_ws (size : Nat) (text : List Char)
    (hsz : 1 ≤ size) (hws : ∀ c ∈ text, isPyWs c = false) :
    (preChunks size text).flatten = text ∧
    split_into_chunks size 0 text = preChunks size text := by
  refine ⟨preChunks_flatten_of_no_ws size hsz text hws, ?_⟩
  simp [split_into_chunks]

theorem splitter_roundtrip_no_ws_witness :
    (preChunks 2 ['a', '。', 'b', 'c']).flatten = ['a', '。', 'b', 'c'] ∧
    split_into_chunks 2 0 ['a', '。', 'b', 'c'] =
      preChunks 2 ['a', '。', 'b', 'c'] :=
  splitter_roundtrip_no_ws 2 ['a', '。', 'b', 'c'] (by norm_num) (by decide)

/-- C6: when a rejecting review names several target stages, the primary
revision target is selected by the fixed priority
screenwriter > storyboard > sound_designer; in particular feedback naming
storyboard and sound_designer but not screenwriter selects storyboard. -/
theorem revision_target_priority (fbs : List DirectorFeedback) :
    ((∃ fb ∈ fbs, fb.target_agent = "screenwriter") →
      _determine_primary_revision_target fbs = "screenwriter") ∧
    ((¬ ∃ fb ∈ fbs, fb.target_agent = "screenwriter") →
      (∃ fb ∈ fbs, fb.target_agent = "storyboard") →
      _determine_primary_revision_target fbs = "storyboard") ∧
    ((¬ ∃ fb ∈ fbs, fb.target_agent = "screenwriter") →
      (¬ ∃ fb ∈ fbs, fb.target_agent = "storyboard") →
      (∃ fb ∈ fbs, fb.target_agent = "sound_designer") →
      _determine_primary_revision_target fbs = "sound_designer") := by
  have conv1 : ∀ t : String,
      fbs.any (fun fb => fb.target_agent = t) = true ↔
        ∃ fb ∈ fbs, fb.target_agent = t := by
    intro t
    simp [List.any_eq_true]
  refine ⟨?_, ?_, ?_⟩
  · intro h
    simp [_determine_primary_revision_target, (conv1 "screenwriter").mpr h]
  · intro h1 h2
    have e1 : fbs.any (fun fb => fb.target_agent = "screenwriter") = false := by
      rw [← Bool.not_eq_true]
      exact fun hc => h1 ((conv1 "screenwriter").mp hc)
    simp [_determine_primary_revision_target, e1, (conv1 "storyboard").mpr h2]
  · intro h1 h2 h3
    have e1 : fbs.any (fun fb => fb.target_agent = "screenwriter") = false := by
      rw [← Bool.not_eq_true]
      exact fun hc => h1 ((conv1 "screenwriter").mp hc)
    have e2 : fbs.any (fun fb => fb.target_agent = "storyboard") = false := by
      rw [← Bool.not_eq_true]
      exact fun hc => h2 ((conv1 "storyboard").mp hc)
    simp [_determine_primary_revision_target, e1, e2,
      (conv1 "sound_designer").mpr h3]

theorem revision_target_priority_witness :
    _determine_primary_revision_target
      [{ target_agent := "storyboard", scene_number := 2, issue := "i1",
         instruction := "r1" },
       { target_agent := "sound_designer", scene_number := 3, issue := "i2",
         instruction := "r2" }] = "storyboard" :=
  (revision_target_priority _).2.1 (by decide) (by decide)

/-! ### Lemmas about the workflow transition system -/

theorem execN_succ (cfg : Config) (sc : Scenario) (text ty : String) (n : Nat) :
    execN cfg sc text ty (n + 1) = stepFn cfg sc n (execN cfg sc text ty n) :=
  rfl

theorem character_extractor_node_frame (r : Except String CharacterSheet)
    (s : WorkflowState) :
    (character_extractor_node r s).revision_count = s.revision_count ∧
    (character_extractor_node r s).skip_human_review = s.skip_human_review ∧
    (character_extractor_node r s).director_feedback = s.director_feedback ∧
    (character_extractor_node r s).revision_target = s.revision_target := by
  cases r <;> exact ⟨rfl, rfl, rfl, rfl⟩

theorem screenwriter_node_frame (r : Except String (List ScreenplayScene))
    (s : WorkflowState) :
    (screenwriter_node r s).revision_count = s.revision_count ∧
    (screenwriter_node r s).skip_human_review = s.skip_human_review ∧
    (screenwriter_node r s).director_feedback = s.director_feedback ∧
    (screenwriter_node r s).revision_target = s.revision_target := by
  cases r <;> exact ⟨rfl, rfl, rfl, rfl⟩

theorem storyboard_node_frame (r : Except String (List StoryboardScene))
    (s : WorkflowState) :
    (storyboard_node r s).revision_count = s.revision_count ∧
    (storyboard_node r s).skip_human_review = s.skip_human_review ∧
    (storyboard_node r s).director_feedback = s.director_feedback ∧
    (storyboard_node r s).revision_target = s.revision_target := by
  cases r <;> exact ⟨rfl, rfl, rfl, rfl⟩

theorem sound_designer_node_frame (r : Except String (List SoundScene))
    (s : WorkflowState) :
    (sound_designer_node r s).revision_count = s.revision_count ∧
    (sound_designer_node r s).skip_human_review = s.skip_human_review ∧
    (sound_designer_node r s).director_feedback = s.director_feedback ∧
    (sound_designer_node r s).revision_target = s.revision_target := by
  cases r <;> exact ⟨rfl, rfl, rfl, rfl⟩

theorem human_reviewer_node_frame (hr : Bool) (d : HumanDecision)
    (s : WorkflowState) :
    (human_reviewer_node hr d s).revision_count = s.revision_count ∧
    (human_reviewer_node hr d s).revision_target = s.revision_target := by
  unfold human_reviewer_node
  by_cases h1 : ¬ hr = true
  · rw [if_pos h1]
    exact ⟨rfl, rfl⟩
  · rw [if_neg h1]
    by_cases h2 : s.skip_human_review = true
    · rw [if_pos h2]
      exact ⟨rfl, rfl⟩
    · rw [if_neg h2]
      dsimp only
      by_cases h3 : (_get_user_decision d).1 = "director"
      · rw [if_pos h3]
        exact ⟨rfl, rfl⟩
      · rw [if_neg h3]
        exact ⟨rfl, rfl⟩

theorem director_node_forced (C : Nat) (r : DirectorResponse)
    (s : WorkflowState) (h : C < s.revision_count + 1) :
    director_node C r s =
      { s with
        revision_target := some "approved"
        is_approved := true
        revision_count := s.revision_count + 1
        director_feedback := []
        final_script := some (_format_final_script s) } := by
  unfold director_node
  rw [if_pos h]

theorem director_node_oracle_free (C : Nat) (r r' : DirectorResponse)
    (s : WorkflowState) (h : C < s.revision_count + 1) :
    director_node C r s = director_node C r' s := by
  rw [director_node_forced C r s h, director_node_forced C r' s h]

theorem director_node_count (C : Nat) (r : DirectorResponse)
    (s : WorkflowState) :
    (director_node C r s).revision_count = s.revision_count + 1 := by
  unfold director_node
  by_cases h : C < s.revision_count + 1
  · rw [if_pos h]
  · rw [if_neg h]
    cases r with
    | parseFail m => rfl
    | parsed d fbs =>
      dsimp only
      by_cases hd : d = "APPROVE"
      · rw [if_pos hd]
      · rw [if_neg hd]

theorem director_node_skip (C : Nat) (r : DirectorResponse)
    (s : WorkflowState) :
    (director_node C r s).skip_human_review = s.skip_human_review := by
  unfold director_node
  by_cases h : C < s.revision_count + 1
  · rw [if_pos h]
  · rw [if_neg h]
    cases r with
    | parseFail m => rfl
    | parsed d fbs =>
      dsimp only
      by_cases hd : d = "APPROVE"
      · rw [if_pos hd]
      · rw [if_neg hd]

theorem director_node_cases (C : Nat) (r : DirectorResponse)
    (s : WorkflowState) :
    ((director_node C r s).revision_target = some "approved" ∧
     (director_node C r s).is_approved = true ∧
     (director_node C r s).final_script.isSome = true ∧
     (director_node C r s).director_feedback = []) ∨
    (∃ d fbs, r = .parsed d fbs ∧ ¬ d = "APPROVE" ∧ ¬ C < s.revision_count + 1 ∧
      director_node C r s =
        { s with
          revision_target := some (_determine_primary_revision_target fbs)
          is_approved := false
          revision_count := s.revision_count + 1
          director_feedback := fbs }) := by
  unfold director_node
  by_cases h : C < s.revision_count + 1
  · rw [if_pos h]
    exact Or.inl ⟨rfl, rfl, rfl, rfl⟩
  · rw [if_neg h]
    cases r with
    | parseFail m => exact Or.inl ⟨rfl, rfl, rfl, rfl⟩
    | parsed d fbs =>
      dsimp only
      by_cases hd : d = "APPROVE"
      · rw [if_pos hd]
        exact Or.inl ⟨rfl, rfl, rfl, rfl⟩
      · rw [if_neg hd]
        exact Or.inr ⟨d, fbs, rfl, hd, h, rfl⟩

theorem route_after_director_terminal_iff (s : WorkflowState) :
    route_after_director s = .terminal ↔ s.revision_target = some "approved" := by
  unfold route_after_director
  cases h : s.revision_target with
  | none => simp
  | some t =>
    dsimp only
    by_cases h1 : t = "approved"
    · rw [if_pos h1, h1]
      simp
    · rw [if_neg h1]
      by_cases h2 : t = "screenwriter"
      · rw [if_pos h2]
        simp [h2, h1]
      · rw [if_neg h2]
        by_cases h3 : t = "storyboard"
        · rw [if_pos h3]
          simp [h3, h1]
        · rw [if_neg h3]
          by_cases h4 : t = "sound_designer"
          · rw [if_pos h4]
            simp [h4, h1]
          · rw [if_neg h4]
            simp [h1]

theorem route_after_human_reviewer_ne_human (s : WorkflowState) :
    route_after_human_reviewer s ≠ .human_reviewer := by
  unfold route_after_human_reviewer
  by_cases h1 : s.human_review_target = "screenwriter"
  · rw [if_pos h1]
    simp
  · rw [if_neg h1]
    by_cases h2 : s.human_review_target = "storyboard"
    · rw [if_pos h2]
      simp
    · rw [if_neg h2]
      by_cases h3 : s.human_review_target = "sound_designer"
      · rw [if_pos h3]
        simp
      · rw [if_neg h3]
        simp

theorem route_after_human_reviewer_ne_terminal (s : WorkflowState) :
    route_after_human_reviewer s ≠ .terminal := by
  unfold route_after_human_reviewer
  by_cases h1 : s.human_review_target = "screenwriter"
  · rw [if_pos h1]
    simp
  · rw [if_neg h1]
    by_cases h2 : s.human_review_target = "storyboard"
    · rw [if_pos h2]
      simp
    · rw [if_neg h2]
      by_cases h3 : s.human_review_target = "sound_designer"
      · rw [if_pos h3]
        simp
      · rw [if_neg h3]
        simp

theorem route_after_director_ne_human (s : WorkflowState) :
    route_after_director s ≠ .human_reviewer := by
  unfold route_after_director
  cases h : s.revision_target with
  | none => simp
  | some t =>
    dsimp only
    by_cases h1 : t = "approved"
    · rw [if_pos h1]
      simp
    · rw [if_neg h1]
      by_cases h2 : t = "screenwriter"
      · rw [if_pos h2]
        simp
      · rw [if_neg h2]
        by_cases h3 : t = "storyboard"
        · rw [if_pos h3]
          simp
        · rw [if_neg h3]
          by_cases h4 : t = "sound_designer"
          · rw [if_pos h4]
            simp
          · rw [if_neg h4]
            simp

theorem execN_absorb (cfg : Config) (sc : Scenario) (text ty : String)
    (n : Nat) (h : nodeAt cfg sc text ty n = .terminal) :
    execN cfg sc text ty (n + 1) = execN cfg sc text ty n := by
  rw [execN_succ]
  rcases hE : execN cfg sc text ty n with ⟨node, s⟩
  have h2 : node = Node.terminal := by
    rw [nodeAt, hE] at h
    exact h
  subst h2
  rfl

theorem execN_absorb_forever (cfg : Config) (sc : Scenario) (text ty : String)
    (n : Nat) (h : nodeAt cfg sc text ty n = .terminal) :
    ∀ m, execN cfg sc text ty (n + m) = execN cfg sc text ty n := by
  intro m
  induction m with
  | zero => rfl
  | succ k ih =>
    have hk : nodeAt cfg sc text ty (n + k) = .terminal := by
      rw [nodeAt, ih]
      exact h
    rw [← Nat.add_assoc, execN_absorb cfg sc text ty (n + k) hk, ih]

theorem execN_step (cfg : Config) (sc : Scenario) (text ty : String) (n : Nat)
    (h : nodeAt cfg sc text ty n ≠ .terminal) :
    execN cfg sc text ty (n + 1) =
      (nextNode cfg (nodeAt cfg sc text ty n)
        (runNode cfg sc n (nodeAt cfg sc text ty n) (stAt cfg sc text ty n)),
       runNode cfg sc n (nodeAt cfg sc text ty n) (stAt cfg sc text ty n)) := by
  rw [execN_succ]
  rcases hE : execN cfg sc text ty n with ⟨node, s⟩
  have hnode : nodeAt cfg sc text ty n = node := by rw [nodeAt, hE]
  have hst : stAt cfg sc text ty n = s := by rw [stAt, hE]
  rw [hnode, hst]
  cases node
  case terminal => exact absurd hnode h
  all_goals rfl

theorem directorVisits_succ (cfg : Config) (sc : Scenario) (text ty : String)
    (N : Nat) :
    directorVisits cfg sc text ty (N + 1) =
      directorVisits cfg sc text ty N +
        (if nodeAt cfg sc text ty N = Node.director then 1 else 0) := by
  unfold directorVisits
  rw [List.range_succ, List.filter_append, List.length_append]
  by_cases h : nodeAt cfg sc text ty N = Node.director
  · simp [h]
  · simp [h]

theorem runNode_count_of_ne (cfg : Config) (sc : Scenario) (n : Nat)
    (node : Node) (s : WorkflowState) (hdir : node ≠ .director)
    (hterm : node ≠ .terminal) :
    (runNode cfg sc n node s).revision_count = s.revision_count := by
  cases node with
  | character_extractor => exact (character_extractor_node_frame _ _).1
  | screenwriter => exact (screenwriter_node_frame _ _).1
  | storyboard => exact (storyboard_node_frame _ _).1
  | sound_designer => exact (sound_designer_node_frame _ _).1
  | human_reviewer => exact (human_reviewer_node_frame _ _ _).1
  | director => exact absurd rfl hdir
  | terminal => exact absurd rfl hterm

theorem exec_invariant (cfg : Config) (sc : Scenario) (text ty : String) :
    ∀ n,
      (stAt cfg sc text ty n).revision_count =
        directorVisits cfg sc text ty n ∧
      (directorVisits cfg sc text ty n = cfg.maxRevisions + 1 →
        nodeAt cfg sc text ty n = .terminal) ∧
      directorVisits cfg sc text ty n ≤ cfg.maxRevisions + 1 := by
  intro n
  induction n with
  | zero =>
    refine ⟨rfl, ?_, ?_⟩
    · intro h
      exact absurd h.symm (Nat.succ_ne_zero cfg.maxRevisions)
    · exact Nat.zero_le _
  | succ n ih =>
    obtain ⟨ih1, ih2, ih3⟩ := ih
    rw [directorVisits_succ]
    by_cases hdir : nodeAt cfg sc text ty n = Node.director
    · rw [if_pos hdir]
      have hterm : nodeAt cfg sc text ty n ≠ .terminal := by
        rw [hdir]
        intro hc
        exact Node.noConfusion hc
      have hne : directorVisits cfg sc text ty n ≠ cfg.maxRevisions + 1 := by
        intro hc
        rw [hdir] at ih2
        exact Node.noConfusion (ih2 hc)
      have hle : directorVisits cfg sc text ty n ≤ cfg.maxRevisions := by
        omega
      have hstep := execN_step cfg sc text ty n hterm
      have hst1 : stAt cfg sc text ty (n + 1) =
          director_node cfg.maxRevisions (sc.directorResp n)
            (stAt cfg sc text ty n) := by
        rw [stAt, hstep, hdir]
        rfl
      refine ⟨?_, ?_, ?_⟩
      · rw [hst1, director_node_count, ih1]
      · intro hc
        have hC : directorVisits cfg sc text ty n = cfg.maxRevisions := by
          omega
        have hforce : cfg.maxRevisions <
            (stAt cfg sc text ty n).revision_count + 1 := by
          rw [ih1, hC]
          omega
        have hforced := director_node_forced cfg.maxRevisions
          (sc.directorResp n) (stAt cfg sc text ty n) hforce
        rw [nodeAt, hstep, hdir]
        show route_after_director _ = Node.terminal
        rw [(route_after_director_terminal_iff _)]
        show (director_node cfg.maxRevisions (sc.directorResp n)
          (stAt cfg sc text ty n)).revision_target = some "approved"
        rw [hforced]
      · omega
    · rw [if_neg hdir, Nat.add_zero]
      by_cases hterm : nodeAt cfg sc text ty n = Node.terminal
      · have habs := execN_absorb cfg sc text ty n hterm
        have h1 : stAt cfg sc text ty (n + 1) = stAt cfg sc text ty n := by
          rw [stAt, habs, stAt]
        have h2 : nodeAt cfg sc text ty (n + 1) = nodeAt cfg sc text ty n := by
          rw [nodeAt, habs, nodeAt]
        rw [h1, h2]
        exact ⟨ih1, ih2, ih3⟩
      · have hstep := execN_step cfg sc text ty n hterm
        have h1 : stAt cfg sc text ty (n + 1) =
            runNode cfg sc n (nodeAt cfg sc text ty n)
              (stAt cfg sc text ty n) := by
          rw [stAt, hstep]
        refine ⟨?_, ?_, ?_⟩
        · rw [h1, runNode_count_of_ne cfg sc n _ _ hdir hterm, ih1]
          omega
        · intro hc
          exact absurd (ih2 (by omega)) hterm
        · omega


theorem runNode_skip_of_ne_human (cfg : Config) (sc : Scenario) (n : Nat)
    (node : Node) (s : WorkflowState) (hh : node ≠ .human_reviewer) :
    (runNode cfg sc n node s).skip_human_review = s.skip_human_review := by
  cases node with
  | character_extractor => exact (character_extractor_node_frame _ _).2.1
  | screenwriter => exact (screenwriter_node_frame _ _).2.1
  | storyboard => exact (storyboard_node_frame _ _).2.1
  | sound_designer => exact (sound_designer_node_frame _ _).2.1
  | human_reviewer => exact absurd rfl hh
  | director => exact director_node_skip _ _ _
  | terminal => rfl

theorem human_inv (cfg : Config) (sc : Scenario) (text ty : String) :
    ∀ n, nodeAt cfg sc text ty n = .human_reviewer →
      cfg.humanReview = true ∧
      (stAt cfg sc text ty n).skip_human_review = false := by
  intro n
  cases n with
  | zero =>
    intro h
    exact absurd h (by rw [nodeAt]; exact fun hc => Node.noConfusion hc)
  | succ m =>
    intro h
    by_cases hterm : nodeAt cfg sc text ty m = .terminal
    · have h2 : nodeAt cfg sc text ty (m + 1) = nodeAt cfg sc text ty m := by
        rw [nodeAt, execN_absorb cfg sc text ty m hterm, ← nodeAt]
      rw [h2, hterm] at h
      exact Node.noConfusion h
    · have hstep := execN_step cfg sc text ty m hterm
      have hnode : nodeAt cfg sc text ty (m + 1) =
          nextNode cfg (nodeAt cfg sc text ty m)
            (runNode cfg sc m (nodeAt cfg sc text ty m)
              (stAt cfg sc text ty m)) := by
        rw [nodeAt, hstep]
      have hst : stAt cfg sc text ty (m + 1) =
          runNode cfg sc m (nodeAt cfg sc text ty m)
            (stAt cfg sc text ty m) := by
        rw [stAt, hstep]
      rw [hnode] at h
      cases hm : nodeAt cfg sc text ty m with
      | character_extractor => rw [hm] at h; exact Node.noConfusion h
      | screenwriter => rw [hm] at h; exact Node.noConfusion h
      | storyboard => rw [hm] at h; exact Node.noConfusion h
      | sound_designer =>
        rw [hm] at h
        have h2 : route_after_sound_designer cfg.humanReview
            (runNode cfg sc m Node.sound_designer (stAt cfg sc text ty m)) =
            Node.human_reviewer := h
        unfold route_after_sound_designer at h2
        by_cases hcond : (¬ cfg.humanReview = true ∨
            (runNode cfg sc m Node.sound_designer
              (stAt cfg sc text ty m)).skip_human_review = true)
        · rw [if_pos hcond] at h2
          exact Node.noConfusion h2
        · push_neg at hcond
          refine ⟨hcond.1, ?_⟩
          rw [hst, hm]
          exact Bool.not_eq_true _ |>.mp hcond.2
      | human_reviewer =>
        rw [hm] at h
        exact absurd h (route_after_human_reviewer_ne_human _)
      | director =>
        rw [hm] at h
        exact absurd h (route_after_director_ne_human _)
      | terminal => exact absurd hm hterm

theorem route_after_director_rank_le (s : WorkflowState) :
    nodeRank (route_after_director s) ≤ 4 := by
  unfold route_after_director
  cases s.revision_target with
  | none => decide
  | some t =>
    dsimp only
    split
    · decide
    · split
      · decide
      · split
        · decide
        · split <;> decide

theorem route_after_sound_designer_rank_le (hr : Bool) (s : WorkflowState) :
    nodeRank (route_after_sound_designer hr s) ≤ 1 := by
  unfold route_after_sound_designer
  split <;> decide

theorem runMeasure_lt_rank (C : Nat) (n1 n2 : Node) (s t : WorkflowState)
    (hc : t.revision_count = s.revision_count)
    (hs : t.skip_human_review = s.skip_human_review)
    (hr : nodeRank n2 < nodeRank n1) :
    runMeasure C (n2, t) < runMeasure C (n1, s) := by
  unfold runMeasure
  dsimp only
  rw [hc, hs]
  omega

theorem runMeasure_lt_skip (C : Nat) (n1 n2 : Node) (s t : WorkflowState)
    (hc : t.revision_count = s.revision_count)
    (hs : s.skip_human_review = false)
    (ht : t.skip_human_review = true)
    (hr2 : nodeRank n2 ≤ 4) (hr1 : nodeRank n1 = 1) :
    runMeasure C (n2, t) < runMeasure C (n1, s) := by
  unfold runMeasure
  dsimp only
  rw [hc, hs, ht, hr1]
  simp only [if_true, if_false, Bool.false_eq_true]
  omega

theorem runMeasure_lt_count (C : Nat) (n1 n2 : Node) (s t : WorkflowState)
    (hc : t.revision_count = s.revision_count + 1)
    (hle : s.revision_count + 1 ≤ C + 1)
    (hs : t.skip_human_review = s.skip_human_review)
    (hr2 : nodeRank n2 ≤ 4) (hr1 : nodeRank n1 = 0) :
    runMeasure C (n2, t) < runMeasure C (n1, s) := by
  unfold runMeasure
  dsimp only
  rw [hc, hs, hr1]
  omega


theorem human_reviewer_node_active (d : HumanDecision) (s : WorkflowState)
    (hskip : s.skip_human_review = false) :
    human_reviewer_node true d s =
      (if (_get_user_decision d).1 = "director" then
        { s with
          human_review_target := "director"
          skip_human_review := false
          director_feedback := [] }
      else
        { s with
          human_review_target := (_get_user_decision d).1
          skip_human_review := true
          director_feedback := (_get_user_decision d).2 }) := by
  unfold human_reviewer_node
  rw [if_neg (by simp), if_neg (by rw [hskip]; simp)]

theorem route_after_human_reviewer_rank_le (s : WorkflowState) :
    nodeRank (route_after_human_reviewer s) ≤ 4 := by
  unfold route_after_human_reviewer
  split
  · decide
  · split
    · decide
    · split <;> decide

theorem measure_step (cfg : Config) (sc : Scenario) (text ty : String)
    (n : Nat) (h : nodeAt cfg sc text ty n ≠ .terminal) :
    nodeAt cfg sc text ty (n + 1) = .terminal ∨
      runMeasure cfg.maxRevisions (execN cfg sc text ty (n + 1)) <
        runMeasure cfg.maxRevisions (execN cfg sc text ty n) := by
  have hstep := execN_step cfg sc text ty n h
  set s := stAt cfg sc text ty n with hsdef
  have hpair : execN cfg sc text ty n = (nodeAt cfg sc text ty n, s) := rfl
  cases hm : nodeAt cfg sc text ty n with
  | terminal => exact absurd hm h
  | character_extractor =>
    right
    rw [hstep, hpair, hm]
    have hnx : nextNode cfg Node.character_extractor
        (runNode cfg sc n Node.character_extractor s) = Node.screenwriter := rfl
    rw [hnx]
    exact runMeasure_lt_rank _ _ _ _ _
      ((character_extractor_node_frame _ _).1)
      ((character_extractor_node_frame _ _).2.1) (by decide)
  | screenwriter =>
    right
    rw [hstep, hpair, hm]
    have hnx : nextNode cfg Node.screenwriter
        (runNode cfg sc n Node.screenwriter s) = Node.storyboard := rfl
    rw [hnx]
    exact runMeasure_lt_rank _ _ _ _ _
      ((screenwriter_node_frame _ _).1)
      ((screenwriter_node_frame _ _).2.1) (by decide)
  | storyboard =>
    right
    rw [hstep, hpair, hm]
    have hnx : nextNode cfg Node.storyboard
        (runNode cfg sc n Node.storyboard s) = Node.sound_designer := rfl
    rw [hnx]
    exact runMeasure_lt_rank _ _ _ _ _
      ((storyboard_node_frame _ _).1)
      ((storyboard_node_frame _ _).2.1) (by decide)
  | sound_designer =>
    right
    rw [hstep, hpair, hm]
    exact runMeasure_lt_rank _ _ _ _ _
      ((sound_designer_node_frame _ _).1)
      ((sound_designer_node_frame _ _).2.1)
      (lt_of_le_of_lt (route_after_sound_designer_rank_le _ _) (by decide))
  | human_reviewer =>
    right
    obtain ⟨hhr, hskip⟩ := human_inv cfg sc text ty n hm
    rw [hstep, hpair, hm]
    have hrun : runNode cfg sc n Node.human_reviewer s =
        human_reviewer_node cfg.humanReview (sc.humanResp n) s := rfl
    rw [hrun, hhr, human_reviewer_node_active (sc.humanResp n) s hskip]
    by_cases hd : (_get_user_decision (sc.humanResp n)).1 = "director"
    · rw [if_pos hd]
      have hroute : nextNode cfg Node.human_reviewer
          ({ s with
             human_review_target := "director"
             skip_human_review := false
             director_feedback := [] }) =
          Node.director := by
        show route_after_human_reviewer _ = _
        unfold route_after_human_reviewer
        rw [if_neg (by simp), if_neg (by simp), if_neg (by simp)]
      rw [hroute]
      exact runMeasure_lt_rank _ _ _ _ _ rfl (by rw [hskip]) (by decide)
    · rw [if_neg hd]
      exact runMeasure_lt_skip _ _ _ _ _ rfl hskip rfl
        (route_after_human_reviewer_rank_le _) rfl
  | director =>
    by_cases hforce : cfg.maxRevisions < s.revision_count + 1
    · left
      have h2 : nodeAt cfg sc text ty (n + 1) =
          nextNode cfg (nodeAt cfg sc text ty n)
            (runNode cfg sc n (nodeAt cfg sc text ty n) s) := by
        rw [nodeAt, hstep]
      rw [h2, hm]
      show route_after_director
        (director_node cfg.maxRevisions (sc.directorResp n) s) = Node.terminal
      rw [director_node_forced _ _ _ hforce, route_after_director_terminal_iff]
    · right
      rw [hstep, hpair, hm]
      exact runMeasure_lt_count _ _ _ _ _ (director_node_count _ _ _)
        (by omega) (director_node_skip _ _ _)
        (route_after_director_rank_le _) rfl

theorem reach_terminal (cfg : Config) (sc : Scenario) (text ty : String) :
    ∀ k n, runMeasure cfg.maxRevisions (execN cfg sc text ty n) ≤ k →
      nodeAt cfg sc text ty (n + k + 1) = .terminal := by
  intro k
  induction k with
  | zero =>
    intro n hk
    by_cases ht : nodeAt cfg sc text ty n = .terminal
    · rw [Nat.add_zero, nodeAt, execN_absorb cfg sc text ty n ht, ← nodeAt]
      exact ht
    · rcases measure_step cfg sc text ty n ht with h2 | h2
      · rw [Nat.add_zero]
        exact h2
      · omega
  | succ k ih =>
    intro n hk
    by_cases ht : nodeAt cfg sc text ty n = .terminal
    · have heq : n + (k + 1) + 1 = n + (k + 2) := by omega
      rw [heq, nodeAt, execN_absorb_forever cfg sc text ty n ht (k + 2),
        ← nodeAt]
      exact ht
    · rcases measure_step cfg sc text ty n ht with h2 | h2
      · have heq : n + (k + 1) + 1 = (n + 1) + (k + 1) := by omega
        rw [heq, nodeAt, execN_absorb_forever cfg sc text ty (n + 1) h2 (k + 1),
          ← nodeAt]
        exact h2
      · have hk2 : runMeasure cfg.maxRevisions
            (execN cfg sc text ty (n + 1)) ≤ k := by omega
        have h3 := ih (n + 1) hk2
        have heq : n + 1 + k + 1 = n + (k + 1) + 1 := by omega
        rw [heq] at h3
        exact h3


/-- C1: for every configured ceiling (any `maxRevisions ≥ 0`) and every
stream of collaborator responses — including a reviewer that always
rejects — the single-segment run reaches Terminal, and the director
(ReviewGate) node is visited at most `maxRevisions + 1` times. -/
theorem director_visits_bounded (cfg : Config) (sc : Scenario)
    (text ty : String) :
    (∃ N, nodeAt cfg sc text ty N = .terminal) ∧
    ∀ N, directorVisits cfg sc text ty N ≤ cfg.maxRevisions + 1 := by
  constructor
  · refine ⟨0 + runMeasure cfg.maxRevisions (execN cfg sc text ty 0) + 1, ?_⟩
    exact reach_terminal cfg sc text ty _ 0 (le_refl _)
  · intro N
    exact (exec_invariant cfg sc text ty N).2.2

theorem route_after_sound_designer_ne_terminal (hr : Bool)
    (s : WorkflowState) : route_after_sound_designer hr s ≠ .terminal := by
  unfold route_after_sound_designer
  split <;> simp

theorem terminal_pred (cfg : Config) (sc : Scenario) (text ty : String)
    (n : Nat) (h1 : nodeAt cfg sc text ty n ≠ .terminal)
    (h2 : nodeAt cfg sc text ty (n + 1) = .terminal) :
    nodeAt cfg sc text ty n = .director ∧
    stAt cfg sc text ty (n + 1) =
      director_node cfg.maxRevisions (sc.directorResp n)
        (stAt cfg sc text ty n) ∧
    (stAt cfg sc text ty (n + 1)).revision_target = some "approved" := by
  have hstep := execN_step cfg sc text ty n h1
  have hnode : nodeAt cfg sc text ty (n + 1) =
      nextNode cfg (nodeAt cfg sc text ty n)
        (runNode cfg sc n (nodeAt cfg sc text ty n)
          (stAt cfg sc text ty n)) := by
    rw [nodeAt, hstep]
  rw [hnode] at h2
  cases hm : nodeAt cfg sc text ty n with
  | character_extractor =>
    rw [hm] at h2
    simp [nextNode] at h2
  | screenwriter =>
    rw [hm] at h2
    simp [nextNode] at h2
  | storyboard =>
    rw [hm] at h2
    simp [nextNode] at h2
  | sound_designer =>
    rw [hm] at h2
    exact absurd h2 (route_after_sound_designer_ne_terminal _ _)
  | human_reviewer =>
    rw [hm] at h2
    exact absurd h2 (route_after_human_reviewer_ne_terminal _)
  | director =>
    rw [hm] at h2
    have hst : stAt cfg sc text ty (n + 1) =
        director_node cfg.maxRevisions (sc.directorResp n)
          (stAt cfg sc text ty n) := by
      rw [stAt, hstep, hm]
      rfl
    refine ⟨rfl, hst, ?_⟩
    rw [hst]
    exact (route_after_director_terminal_iff _).mp h2
  | terminal => exact absurd hm h1

theorem first_crossing (cfg : Config) (sc : Scenario) (text ty : String) :
    ∀ N, nodeAt cfg sc text ty N = .terminal →
      ∃ n, n < N ∧ nodeAt cfg sc text ty n ≠ .terminal ∧
        nodeAt cfg sc text ty (n + 1) = .terminal := by
  intro N
  induction N with
  | zero =>
    intro h
    rw [nodeAt] at h
    exact absurd h (fun hc => Node.noConfusion hc)
  | succ m ih =>
    intro h
    by_cases hm : nodeAt cfg sc text ty m = .terminal
    · rcases ih hm with ⟨n, hn, hne, hcr⟩
      exact ⟨n, Nat.lt_succ_of_lt hn, hne, hcr⟩
    · exact ⟨m, Nat.lt_succ_self m, hm, h⟩

/-- C2 (amended): Terminal is reached only from the director node and only
with `revision_target = "approved"`; moreover, provided the director
response at the final gate visit is not a rejection whose feedback resolves
to no draft stage, the terminal state has `is_approved = true` and a
non-null `final_script`.  (A `REVISE` decision whose feedback names none of
the three draft stages reaches Terminal with `is_approved = false` — see
the counterexample.) -/
theorem terminal_only_via_director (cfg : Config) (sc : Scenario)
    (text ty : String) (n : Nat)
    (h1 : nodeAt cfg sc text ty n ≠ .terminal)
    (h2 : nodeAt cfg sc text ty (n + 1) = .terminal) :
    nodeAt cfg sc text ty n = .director ∧
    (stAt cfg sc text ty (n + 1)).revision_target = some "approved" ∧
    ((∀ d fbs, sc.directorResp n = .parsed d fbs → ¬ d = "APPROVE" →
        _determine_primary_revision_target fbs ≠ "approved") →
      (stAt cfg sc text ty (n + 1)).is_approved = true ∧
      (stAt cfg sc text ty (n + 1)).final_script.isSome = true) := by
  obtain ⟨hdir, hst, hrt⟩ := terminal_pred cfg sc text ty n h1 h2
  refine ⟨hdir, hrt, ?_⟩
  intro hyp
  rcases director_node_cases cfg.maxRevisions (sc.directorResp n)
      (stAt cfg sc text ty n) with happr | ⟨d, fbs, hr, hd, _, heq⟩
  · rw [hst]
    exact ⟨happr.2.1, happr.2.2.1⟩
  · exfalso
    have hne := hyp d fbs hr hd
    rw [hst, heq] at hrt
    exact hne (Option.some.inj hrt)

theorem terminal_only_via_director_witness :
    (stAt cfgAuto approveScenario "甲" "玄幻" 5).is_approved = true ∧
    (stAt cfgAuto approveScenario "甲" "玄幻" 5).final_script.isSome = true :=
  (terminal_only_via_director cfgAuto approveScenario "甲" "玄幻" 4
    (by decide) (by decide)).2.2
    (by
      intro d fbs h hd
      have h2 : DirectorResponse.parsed "APPROVE" [] =
          DirectorResponse.parsed d fbs := h
      cases h2
      exact absurd rfl hd)

/-- C2 counterexample: with a reviewer that rejects with an empty feedback
list, the run reaches Terminal (step 5, straight after the first director
visit) with `is_approved = false` and no final artifact, contradicting the
claim that the terminal state always has `approved = true` and a non-null
`finalArtifact`. -/
theorem terminal_without_approval_counterexample :
    nodeAt cfgAuto emptyRejectScenario "甲" "玄幻" 5 = .terminal ∧
    (stAt cfgAuto emptyRejectScenario "甲" "玄幻" 5).is_approved = false ∧
    (stAt cfgAuto emptyRejectScenario "甲" "玄幻" 5).final_script = none := by
  refine ⟨by decide, by decide, by decide⟩


/-- C3: with ceiling 3 and a reviewer that always rejects, the fourth
director visit (engine step 16; the first three visits are steps 4, 8, 12)
takes the forced-approval path: afterwards `revision_count = 4`,
`is_approved = true`, `revision_target = "approved"`, the feedback list is
empty, a non-null final script is synthesized, the run is at Terminal, and
the update of that visit is independent of the reviewer response (the
oracle is never consulted on the forced path). -/
theorem forced_approval_scenario :
    nodeAt cfgAuto rejectScenario "原文" "仙侠/玄幻" 16 = .director ∧
    directorVisits cfgAuto rejectScenario "原文" "仙侠/玄幻" 16 = 3 ∧
    nodeAt cfgAuto rejectScenario "原文" "仙侠/玄幻" 17 = .terminal ∧
    (stAt cfgAuto rejectScenario "原文" "仙侠/玄幻" 17).revision_count = 4 ∧
    (stAt cfgAuto rejectScenario "原文" "仙侠/玄幻" 17).is_approved = true ∧
    (stAt cfgAuto rejectScenario "原文" "仙侠/玄幻" 17).revision_target =
      some "approved" ∧
    (stAt cfgAuto rejectScenario "原文" "仙侠/玄幻" 17).director_feedback = [] ∧
    (stAt cfgAuto rejectScenario "原文" "仙侠/玄幻" 17).final_script.isSome =
      true ∧
    ∀ r : DirectorResponse,
      director_node cfgAuto.maxRevisions r
          (stAt cfgAuto rejectScenario "原文" "仙侠/玄幻" 16) =
        director_node cfgAuto.maxRevisions (rejectScenario.directorResp 16)
          (stAt cfgAuto rejectScenario "原文" "仙侠/玄幻" 16) := by
  refine ⟨by decide, by decide, by decide, by decide, by decide, by decide,
    by decide, ?_, ?_⟩
  · rfl
  · intro r
    exact director_node_oracle_free cfgAuto.maxRevisions r
      (rejectScenario.directorResp 16) _ (by decide)


theorem runNode_rt_of_ne (cfg : Config) (sc : Scenario) (n : Nat)
    (node : Node) (s : WorkflowState) (hdir : node ≠ .director) :
    (runNode cfg sc n node s).revision_target = s.revision_target := by
  cases node with
  | character_extractor => exact (character_extractor_node_frame _ _).2.2.2
  | screenwriter => exact (screenwriter_node_frame _ _).2.2.2
  | storyboard => exact (storyboard_node_frame _ _).2.2.2
  | sound_designer => exact (sound_designer_node_frame _ _).2.2.2
  | human_reviewer => exact (human_reviewer_node_frame _ _ _).2
  | director => exact absurd rfl hdir
  | terminal => rfl

theorem any_eq_false_of_forall {fbs : List DirectorFeedback} {t : String}
    (h : ∀ fb ∈ fbs, ¬ fb.target_agent = t) :
    fbs.any (fun fb => fb.target_agent = t) = false := by
  rw [← Bool.not_eq_true]
  intro hc
  rcases List.any_eq_true.mp hc with ⟨fb, hmem, hfb⟩
  exact h fb hmem (by simpa using hfb)

theorem primary_ne_approved (fbs : List DirectorFeedback) (hne : fbs ≠ [])
    (h3 : ∀ fb ∈ fbs, fb.target_agent = "screenwriter" ∨
      fb.target_agent = "storyboard" ∨ fb.target_agent = "sound_designer") :
    _determine_primary_revision_target fbs ≠ "approved" := by
  unfold _determine_primary_revision_target
  by_cases h1 : fbs.any (fun fb => fb.target_agent = "screenwriter") = true
  · rw [if_pos h1]
    decide
  · rw [if_neg h1]
    by_cases h2 : fbs.any (fun fb => fb.target_agent = "storyboard") = true
    · rw [if_pos h2]
      decide
    · rw [if_neg h2]
      by_cases h4 : fbs.any (fun fb => fb.target_agent = "sound_designer") =
          true
      · rw [if_pos h4]
        decide
      · exfalso
        rcases List.exists_mem_of_ne_nil fbs hne with ⟨fb, hmem⟩
        rcases h3 fb hmem with ht | ht | ht
        · exact h1 (List.any_eq_true.mpr ⟨fb, hmem, by simp [ht]⟩)
        · exact h2 (List.any_eq_true.mpr ⟨fb, hmem, by simp [ht]⟩)
        · exact h4 (List.any_eq_true.mpr ⟨fb, hmem, by simp [ht]⟩)

theorem feedback_inv (cfg : Config) (sc : Scenario) (text ty : String)
    (hyp : ∀ m d fbs, sc.directorResp m = .parsed d fbs →
      ∀ fb ∈ fbs, fb.target_agent = "screenwriter" ∨
        fb.target_agent = "storyboard" ∨ fb.target_agent = "sound_designer") :
    ∀ n,
      ((stAt cfg sc text ty n).director_feedback ≠ [] →
        (stAt cfg sc text ty n).revision_target ≠ some "approved") ∧
      ((stAt cfg sc text ty n).revision_target = some "approved" →
        nodeAt cfg sc text ty n = .terminal) := by
  intro n
  induction n with
  | zero =>
    constructor
    · intro hfb
      exact absurd rfl hfb
    · intro hrt
      exact absurd hrt (by rw [stAt]; exact fun hc => Option.noConfusion hc)
  | succ n ih =>
    obtain ⟨ih1, ih2⟩ := ih
    by_cases hterm : nodeAt cfg sc text ty n = .terminal
    · have habs := execN_absorb cfg sc text ty n hterm
      have e1 : stAt cfg sc text ty (n + 1) = stAt cfg sc text ty n := by
        rw [stAt, habs, ← stAt]
      have e2 : nodeAt cfg sc text ty (n + 1) = nodeAt cfg sc text ty n := by
        rw [nodeAt, habs, ← nodeAt]
      rw [e1, e2]
      exact ⟨ih1, ih2⟩
    · have hstep := execN_step cfg sc text ty n hterm
      have hst : stAt cfg sc text ty (n + 1) =
          runNode cfg sc n (nodeAt cfg sc text ty n)
            (stAt cfg sc text ty n) := by
        rw [stAt, hstep]
      have hnd : nodeAt cfg sc text ty (n + 1) =
          nextNode cfg (nodeAt cfg sc text ty n)
            (runNode cfg sc n (nodeAt cfg sc text ty n)
              (stAt cfg sc text ty n)) := by
        rw [nodeAt, hstep]
      by_cases hdir : nodeAt cfg sc text ty n = .director
      · have hst2 : stAt cfg sc text ty (n + 1) =
            director_node cfg.maxRevisions (sc.directorResp n)
              (stAt cfg sc text ty n) := by
          rw [hst, hdir]
          rfl
        have hnd2 : nodeAt cfg sc text ty (n + 1) =
            route_after_director (stAt cfg sc text ty (n + 1)) := by
          rw [hnd, hdir, hst2]
          rfl
        rcases director_node_cases cfg.maxRevisions (sc.directorResp n)
            (stAt cfg sc text ty n) with happr | ⟨d, fbs, hr, hd, _, heq⟩
        · constructor
          · intro hfb
            rw [hst2] at hfb
            exact absurd happr.2.2.2 hfb
          · intro _
            rw [hnd2]
            exact (route_after_director_terminal_iff _).mpr (by
              rw [hst2]
              exact happr.1)
        · by_cases hfbs : fbs = []
          · subst hfbs
            constructor
            · intro hfb
              rw [hst2, heq] at hfb
              exact absurd rfl hfb
            · intro _
              rw [hnd2]
              refine (route_after_director_terminal_iff _).mpr ?_
              rw [hst2, heq]
              show some (_determine_primary_revision_target []) =
                some "approved"
              decide
          · have hprim := primary_ne_approved fbs hfbs
              (hyp n d fbs hr)
            constructor
            · intro _
              rw [hst2, heq]
              intro hc
              exact hprim (Option.some.inj hc)
            · intro hrt
              exfalso
              rw [hst2, heq] at hrt
              exact hprim (Option.some.inj hrt)
      · have hrt : (stAt cfg sc text ty (n + 1)).revision_target =
            (stAt cfg sc text ty n).revision_target := by
          rw [hst]
          exact runNode_rt_of_ne cfg sc n _ _ hdir
        have hprev : (stAt cfg sc text ty n).revision_target ≠
            some "approved" := by
          intro hc
          exact hterm (ih2 hc)
        constructor
        · intro _
          rw [hrt]
          exact hprev
        · intro hc
          rw [hrt] at hc
          exact absurd hc hprev

/-- C7 (amended): in every reachable state of a segment run, the feedback
list is non-empty only when `revision_target` is not `"approved"`, provided
every rejecting review's feedback items target one of the three draft
stages.  (A rejection whose feedback items name only other targets — e.g.
`"director"` — is stored verbatim while `revision_target` is set to
`"approved"`, violating the unconditional claim; see the counterexample.) -/
theorem feedback_empty_when_approved (cfg : Config) (sc : Scenario)
    (text ty : String)
    (hyp : ∀ m d fbs, sc.directorResp m = .parsed d fbs →
      ∀ fb ∈ fbs, fb.target_agent = "screenwriter" ∨
        fb.target_agent = "storyboard" ∨ fb.target_agent = "sound_designer") :
    ∀ n, (stAt cfg sc text ty n).director_feedback ≠ [] →
      (stAt cfg sc text ty n).revision_target ≠ some "approved" := by
  intro n
  exact (feedback_inv cfg sc text ty hyp n).1

theorem feedback_empty_when_approved_witness :
    (stAt cfgAuto rejectScenario "甲" "玄幻" 5).revision_target ≠
      some "approved" :=
  feedback_empty_when_approved cfgAuto rejectScenario "甲" "玄幻"
    (by
      intro m d fbs h fb hfb
      have h2 : DirectorResponse.parsed "REVISE" [fbScreenwriter] =
          DirectorResponse.parsed d fbs := h
      cases h2
      have h3 : fb = fbScreenwriter := by simpa using hfb
      subst h3
      left
      rfl)
    5 (by decide)

/-- C7 counterexample: a rejecting review whose only feedback item targets
`"director"` (not one of the three draft stages) leaves the run in a state
with a non-empty feedback list and `revision_target = "approved"` at the
same time. -/
theorem feedback_approved_counterexample :
    (stAt cfgAuto misdirectedRejectScenario "甲" "玄幻" 5).director_feedback ≠
      [] ∧
    (stAt cfgAuto misdirectedRejectScenario "甲" "玄幻" 5).revision_target =
      some "approved" := by
  refine ⟨by decide, by decide⟩


theorem skip_step_monotone (cfg : Config) (sc : Scenario) (text ty : String)
    (n : Nat) (hskip : (stAt cfg sc text ty n).skip_human_review = true) :
    (stAt cfg sc text ty (n + 1)).skip_human_review = true := by
  by_cases hterm : nodeAt cfg sc text ty n = .terminal
  · rw [stAt, execN_absorb cfg sc text ty n hterm, ← stAt]
    exact hskip
  · have hstep := execN_step cfg sc text ty n hterm
    have hst : stAt cfg sc text ty (n + 1) =
        runNode cfg sc n (nodeAt cfg sc text ty n)
          (stAt cfg sc text ty n) := by
      rw [stAt, hstep]
    by_cases hhum : nodeAt cfg sc text ty n = .human_reviewer
    · obtain ⟨_, hsf⟩ := human_inv cfg sc text ty n hhum
      rw [hsf] at hskip
      exact Bool.noConfusion hskip
    · rw [hst, runNode_skip_of_ne_human cfg sc n _ _ hhum]
      exact hskip

theorem skip_monotone_le (cfg : Config) (sc : Scenario) (text ty : String)
    (m : Nat) (hskip : (stAt cfg sc text ty m).skip_human_review = true) :
    ∀ k, (stAt cfg sc text ty (m + k)).skip_human_review = true := by
  intro k
  induction k with
  | zero => exact hskip
  | succ j ih => exact skip_step_monotone cfg sc text ty (m + j) ih

theorem bool_flips_le_one (f : Nat → Bool)
    (mono : ∀ n, f n = true → f (n + 1) = true) :
    ∀ N, ((List.range N).filter
      (fun n => f n = false ∧ f (n + 1) = true)).length ≤ 1 := by
  have monoUp : ∀ m k, f m = true → f (m + k) = true := by
    intro m k hm
    induction k with
    | zero => exact hm
    | succ j ih => exact mono (m + j) ih
  intro N
  by_contra hc
  push_neg at hc
  have hnd : ((List.range N).filter
      (fun n => f n = false ∧ f (n + 1) = true)).Nodup :=
    (List.nodup_range N).filter _
  cases hlist : (List.range N).filter
      (fun n => f n = false ∧ f (n + 1) = true) with
  | nil =>
    rw [hlist] at hc
    simp at hc
  | cons a rest =>
    cases rest with
    | nil =>
      rw [hlist] at hc
      simp at hc
    | cons b t =>
      rw [hlist] at hnd
      have hab : a ≠ b := by
        intro hab
        subst hab
        exact (List.nodup_cons.mp hnd).1 (List.mem_cons_self a t)
      have hamem : a ∈ (List.range N).filter
          (fun n => f n = false ∧ f (n + 1) = true) := by
        rw [hlist]
        exact List.mem_cons_self a (b :: t)
      have hbmem : b ∈ (List.range N).filter
          (fun n => f n = false ∧ f (n + 1) = true) := by
        rw [hlist]
        exact List.mem_cons_of_mem a (List.mem_cons_self b t)
      have ha : f a = false ∧ f (a + 1) = true := by
        simpa using List.of_mem_filter hamem
      have hb : f b = false ∧ f (b + 1) = true := by
        simpa using List.of_mem_filter hbmem
      rcases Nat.lt_or_ge a b with hlt | hge
      · have h2 : f b = true := by
          have h3 := monoUp (a + 1) (b - (a + 1)) ha.2
          rwa [Nat.add_sub_cancel' (by omega : a + 1 ≤ b)] at h3
        rw [hb.1] at h2
        exact Bool.noConfusion h2
      · have hlt2 : b < a := by omega
        have h2 : f a = true := by
          have h3 := monoUp (b + 1) (a - (b + 1)) hb.2
          rwa [Nat.add_sub_cancel' (by omega : b + 1 ≤ a)] at h3
        rw [ha.1] at h2
        exact Bool.noConfusion h2

/-- C8: within a single segment run, the `skip_human_review` flag never
falls back from true to false (monotone step lemma); once it is true the
route after the sound designer never enters the human checkpoint again; and
the flag flips from false to true at most once over any prefix of the
run. -/
theorem checkpoint_monotone (cfg : Config) (sc : Scenario) (text ty : String) :
    (∀ n, (stAt cfg sc text ty n).skip_human_review = true →
      (stAt cfg sc text ty (n + 1)).skip_human_review = true) ∧
    (∀ n, (stAt cfg sc text ty n).skip_human_review = true →
      nodeAt cfg sc text ty n = .sound_designer →
      nodeAt cfg sc text ty (n + 1) ≠ .human_reviewer) ∧
    (∀ N, ((List.range N).filter
      (fun n => (stAt cfg sc text ty n).skip_human_review = false ∧
        (stAt cfg sc text ty (n + 1)).skip_human_review = true)).length ≤ 1) := by
  refine ⟨skip_step_monotone cfg sc text ty, ?_, ?_⟩
  · intro n hskip hm
    have hterm : nodeAt cfg sc text ty n ≠ .terminal := by
      rw [hm]
      intro hcon
      exact Node.noConfusion hcon
    have hstep := execN_step cfg sc text ty n hterm
    have hnd : nodeAt cfg sc text ty (n + 1) =
        nextNode cfg (nodeAt cfg sc text ty n)
          (runNode cfg sc n (nodeAt cfg sc text ty n)
            (stAt cfg sc text ty n)) := by
      rw [nodeAt, hstep]
    rw [hnd, hm]
    show route_after_sound_designer cfg.humanReview _ ≠ .human_reviewer
    unfold route_after_sound_designer
    rw [if_pos]
    · intro hcon
      exact Node.noConfusion hcon
    · right
      have h2 : (runNode cfg sc n Node.sound_designer
          (stAt cfg sc text ty n)).skip_human_review =
          (stAt cfg sc text ty n).skip_human_review :=
        (sound_designer_node_frame _ _).2.1
      rw [h2]
      exact hskip
  · exact bool_flips_le_one _ (skip_step_monotone cfg sc text ty)

theorem checkpoint_monotone_witness :
    (stAt cfgHuman humanRedirectScenario "甲" "玄幻" 6).skip_human_review =
      true :=
  (checkpoint_monotone cfgHuman humanRedirectScenario "甲" "玄幻").1 5
    (by decide)


theorem director_node_parseFail (C : Nat) (e : String) (s : WorkflowState) :
    director_node C (.parseFail e) s =
      { s with
        revision_target := some "approved"
        is_approved := true
        revision_count := s.revision_count + 1
        director_feedback := []
        final_script := some (_format_final_script s) } := by
  unfold director_node
  by_cases hf : C < s.revision_count + 1
  · rw [if_pos hf]
  · rw [if_neg hf]

/-- C9: every stage fails closed on a parse failure: the three drafting
stages return a one-element placeholder scene list with sentinel scene
number 0 and the diagnostic string embedded; the director defaults to an
approval (with a synthesized final script and cleared feedback); and a run
in which every delegated call fails still reaches Terminal, approved and
with a non-null final script. -/
theorem parse_failure_degraded (e : String) (s : WorkflowState) (C : Nat)
    (cfg : Config) (text ty : String) :
    ((screenwriter_node (.error e) s).screenplay_scenes ≠ [] ∧
      ∀ x ∈ (screenwriter_node (.error e) s).screenplay_scenes,
        x.scene_number = 0 ∧ x.action = e) ∧
    ((storyboard_node (.error e) s).storyboard_scenes ≠ [] ∧
      ∀ x ∈ (storyboard_node (.error e) s).storyboard_scenes,
        x.scene_number = 0 ∧ x.image_prompt = e) ∧
    ((sound_designer_node (.error e) s).sound_scenes ≠ [] ∧
      ∀ x ∈ (sound_designer_node (.error e) s).sound_scenes,
        x.scene_number = 0 ∧ x.foley = e) ∧
    ((director_node C (.parseFail e) s).is_approved = true ∧
      (director_node C (.parseFail e) s).revision_target = some "approved" ∧
      (director_node C (.parseFail e) s).final_script.isSome = true ∧
      (director_node C (.parseFail e) s).director_feedback = []) ∧
    (∃ N, nodeAt cfg (allFailScenario e) text ty N = .terminal ∧
      (stAt cfg (allFailScenario e) text ty N).is_approved = true ∧
      (stAt cfg (allFailScenario e) text ty N).final_script.isSome = true) := by
  refine ⟨⟨?_, ?_⟩, ⟨?_, ?_⟩, ⟨?_, ?_⟩, ?_, ?_⟩
  · simp [screenwriter_node]
  · intro x hx
    simp [screenwriter_node] at hx
    subst hx
    exact ⟨rfl, rfl⟩
  · simp [storyboard_node]
  · intro x hx
    simp [storyboard_node] at hx
    subst hx
    exact ⟨rfl, rfl⟩
  · simp [sound_designer_node]
  · intro x hx
    simp [sound_designer_node] at hx
    subst hx
    exact ⟨rfl, rfl⟩
  · rw [director_node_parseFail]
    exact ⟨rfl, rfl, rfl, rfl⟩
  · have hterm0 : nodeAt cfg (allFailScenario e) text ty
        (0 + runMeasure cfg.maxRevisions
          (execN cfg (allFailScenario e) text ty 0) + 1) = .terminal :=
      reach_terminal cfg (allFailScenario e) text ty _ 0 (le_refl _)
    obtain ⟨n, _, hne, hcr⟩ :=
      first_crossing cfg (allFailScenario e) text ty _ hterm0
    obtain ⟨hdir, hst, _⟩ :=
      terminal_pred cfg (allFailScenario e) text ty n hne hcr
    have hresp : (allFailScenario e).directorResp n = .parseFail e := rfl
    refine ⟨n + 1, hcr, ?_, ?_⟩
    · rw [hst, hresp, director_node_parseFail]
    · rw [hst, hresp, director_node_parseFail]
      rfl

theorem parse_failure_degraded_witness :
    ({ scene_number := 0, setting := "❌ 编剧输出解析失败", action := "boom",
       dialogue := [], visual_hint := "请检查 LLM 的响应格式" } :
      ScreenplayScene).scene_number = 0 ∧
    ({ scene_number := 0, setting := "❌ 编剧输出解析失败", action := "boom",
       dialogue := [], visual_hint := "请检查 LLM 的响应格式" } :
      ScreenplayScene).action = "boom" :=
  (parse_failure_degraded "boom" (build_initial_state "甲" "玄幻") 3 cfgAuto
    "甲" "玄幻").1.2 _ (by decide)


theorem applySceneOffset_length (off : Int) (s : WorkflowState) :
    (applySceneOffset off s).screenplay_scenes.length =
      s.screenplay_scenes.length := by
  unfold applySceneOffset
  split <;> simp

theorem applySceneOffset_nums (off : Int) (hoff : 0 ≤ off)
    (s : WorkflowState) :
    screenplayNums ((applySceneOffset off s).screenplay_scenes) =
      (screenplayNums s.screenplay_scenes).map (fun x => x + off) ∧
    storyboardNums ((applySceneOffset off s).storyboard_scenes) =
      (storyboardNums s.storyboard_scenes).map (fun x => x + off) ∧
    soundNums ((applySceneOffset off s).sound_scenes) =
      (soundNums s.sound_scenes).map (fun x => x + off) := by
  unfold applySceneOffset
  by_cases h0 : 0 < off
  · rw [if_pos h0]
    refine ⟨?_, ?_, ?_⟩ <;>
      simp [screenplayNums, storyboardNums, soundNums, List.map_map,
        Function.comp]
  · have hz : off = 0 := by omega
    subst hz
    rw [if_neg h0]
    refine ⟨?_, ?_, ?_⟩ <;>
      simp [screenplayNums, storyboardNums, soundNums]

theorem offAt_zero (states : List WorkflowState) : offAt states 0 = 0 := by
  simp [offAt]

theorem offAt_cons_succ (s : WorkflowState) (rest : List WorkflowState)
    (i : Nat) :
    offAt (s :: rest) (i + 1) =
      (s.screenplay_scenes.length : Int) + offAt rest i := by
  simp [offAt, List.take_succ_cons]

theorem offsetRun_get? (states : List WorkflowState) :
    ∀ (off : Int) (i : Nat), 0 ≤ off →
      (offsetRun off states)[i]? =
        (states[i]?).map (fun s => applySceneOffset (off + offAt states i) s) := by
  induction states with
  | nil =>
    intro off i _
    simp [offsetRun]
  | cons s rest ih =>
    intro off i hoff
    cases i with
    | zero =>
      rw [offsetRun]
      simp [offAt_zero]
    | succ i =>
      rw [offsetRun]
      have h1 : (applySceneOffset off s).screenplay_scenes.length =
          s.screenplay_scenes.length := applySceneOffset_length off s
      simp only [List.getElem?_cons_succ, h1]
      rw [ih (off + (s.screenplay_scenes.length : Int)) i (by positivity),
        offAt_cons_succ]
      have h2 : off + (s.screenplay_scenes.length : Int) + offAt rest i =
          off + ((s.screenplay_scenes.length : Int) + offAt rest i) := by
        ring
      rw [h2]

theorem offAt_succ_of_lt (states : List WorkflowState) (i : Nat)
    (h : i < states.length) :
    offAt states (i + 1) =
      offAt states i + ((states.get ⟨i, h⟩).screenplay_scenes.length : Int) := by
  have hnat : ((states.take (i + 1)).map
      (fun s => s.screenplay_scenes.length)).sum =
      ((states.take i).map (fun s => s.screenplay_scenes.length)).sum +
        (states.get ⟨i, h⟩).screenplay_scenes.length := by
    rw [List.take_succ]
    have h2 : states[i]? = some (states.get ⟨i, h⟩) := by
      rw [List.getElem?_eq_getElem h]
      rfl
    rw [h2]
    simp only [Option.toList_some, List.map_append, List.sum_append,
      List.map_cons, List.map_nil, List.sum_cons, List.sum_nil]
    omega
  unfold offAt
  rw [hnat]
  push_cast
  ring

theorem numsFrom_map_add (c : Int) : ∀ (a : Int) (n : Nat),
    (numsFrom a n).map (fun x => x + c) = numsFrom (a + c) n := by
  intro a n
  induction n generalizing a with
  | zero => rfl
  | succ m ih =>
    rw [numsFrom, numsFrom, List.map_cons, ih (a + 1)]
    have h : a + 1 + c = a + c + 1 := by ring
    rw [h]

theorem numsFrom_append : ∀ (n : Nat) (a : Int) (m : Nat),
    numsFrom a (n + m) = numsFrom a n ++ numsFrom (a + (n : Int)) m := by
  intro n
  induction n with
  | zero =>
    intro a m
    simp [numsFrom]
  | succ k ih =>
    intro a m
    have h1 : k + 1 + m = (k + m) + 1 := by omega
    rw [h1, numsFrom, numsFrom, ih (a + 1) m, List.cons_append]
    have h2 : a + 1 + (k : Int) = a + ((k : Int) + 1) := by ring
    rw [h2]
    push_cast
    rfl

theorem numsFrom_mem_ge : ∀ (n : Nat) (a x : Int), x ∈ numsFrom a n → a ≤ x := by
  intro n
  induction n with
  | zero =>
    intro a x hx
    simp [numsFrom] at hx
  | succ m ih =>
    intro a x hx
    rw [numsFrom] at hx
    rcases List.mem_cons.mp hx with h | h
    · omega
    · have := ih (a + 1) x h
      omega

theorem numsFrom_nodup : ∀ (n : Nat) (a : Int), (numsFrom a n).Nodup := by
  intro n
  induction n with
  | zero =>
    intro a
    simp [numsFrom]
  | succ m ih =>
    intro a
    rw [numsFrom]
    refine List.nodup_cons.mpr ⟨?_, ih (a + 1)⟩
    intro hmem
    have := numsFrom_mem_ge m (a + 1) a hmem
    omega

theorem offsetRun_flatten_nums (states : List WorkflowState) :
    ∀ off : Int, 0 ≤ off →
      (∀ s ∈ states, screenplayNums s.screenplay_scenes =
        numsFrom 1 s.screenplay_scenes.length) →
      ((offsetRun off states).map
        (fun s => screenplayNums s.screenplay_scenes)).flatten =
      numsFrom (1 + off)
        ((states.map (fun s => s.screenplay_scenes.length)).sum) := by
  induction states with
  | nil =>
    intro off _ _
    simp [offsetRun, numsFrom]
  | cons s rest ih =>
    intro off hoff hall
    rw [offsetRun]
    simp only [List.map_cons, List.flatten_cons, List.sum_cons,
      applySceneOffset_length]
    have h1 := (applySceneOffset_nums off hoff s).1
    rw [h1, hall s (List.mem_cons_self s rest), numsFrom_map_add,
      ih (off + (s.screenplay_scenes.length : Int)) (by positivity)
        (fun x hx => hall x (List.mem_cons_of_mem s hx))]
    have h2 : 1 + (off + (s.screenplay_scenes.length : Int)) =
        (1 + off) + (s.screenplay_scenes.length : Int) := by ring
    rw [h2, ← numsFrom_append]

/-- C4: processing completed segment states in order applies to segment `i`
a single offset equal to the sum of the screenplay scene counts of the
earlier segments (the same offset shifts all three scene sequences), the
running offset advances after segment `i` by exactly its screenplay scene
count, and — when each segment is canonically numbered `1..nᵢ` — the merged
screenplay scene numbers are exactly `1..(n₁+⋯+n_k)`, with no gaps and no
duplicates. -/
theorem merge_offset_correctness (states : List WorkflowState) (ty : String) :
    (∀ (off : Int), 0 ≤ off → ∀ s : WorkflowState,
      screenplayNums ((applySceneOffset off s).screenplay_scenes) =
        (screenplayNums s.screenplay_scenes).map (fun x => x + off) ∧
      storyboardNums ((applySceneOffset off s).storyboard_scenes) =
        (storyboardNums s.storyboard_scenes).map (fun x => x + off) ∧
      soundNums ((applySceneOffset off s).sound_scenes) =
        (soundNums s.sound_scenes).map (fun x => x + off)) ∧
    (∀ i : Nat, (offsetRun 0 states)[i]? =
      (states[i]?).map (fun s => applySceneOffset (offAt states i) s)) ∧
    (∀ i (h : i < states.length),
      offAt states (i + 1) =
        offAt states i +
          ((states.get ⟨i, h⟩).screenplay_scenes.length : Int)) ∧
    ((∀ s ∈ states, screenplayNums s.screenplay_scenes =
        numsFrom 1 s.screenplay_scenes.length) →
      screenplayNums (merge_chunk_results (offsetRun 0 states) ty).screenplay_scenes =
        numsFrom 1 ((states.map (fun s => s.screenplay_scenes.length)).sum) ∧
      (screenplayNums (merge_chunk_results (offsetRun 0 states) ty).screenplay_scenes).Nodup) := by
  refine ⟨applySceneOffset_nums, ?_, offAt_succ_of_lt states, ?_⟩
  · intro i
    have := offsetRun_get? states 0 i (le_refl 0)
    simpa using this
  · intro hall
    have hmerge : (merge_chunk_results (offsetRun 0 states) ty).screenplay_scenes =
        (offsetRun 0 states).flatMap (fun s => s.screenplay_scenes) := rfl
    have hnums : screenplayNums ((offsetRun 0 states).flatMap
        (fun s => s.screenplay_scenes)) =
        ((offsetRun 0 states).map
          (fun s => screenplayNums s.screenplay_scenes)).flatten := by
      simp only [screenplayNums, List.flatMap_def, List.map_flatten,
        List.map_map]
      rfl
    have hfin := offsetRun_flatten_nums states 0 (le_refl 0) hall
    rw [Int.add_zero] at hfin
    constructor
    · rw [hmerge, hnums, hfin]
    · rw [hmerge, hnums, hfin]
      exact numsFrom_nodup _ 1

theorem merge_offset_correctness_witness :
    screenplayNums (merge_chunk_results (offsetRun 0 [segStateA, segStateB]) "仙侠/玄幻").screenplay_scenes = numsFrom 1 3 :=
  ((merge_offset_correctness [segStateA, segStateB] "仙侠/玄幻").2.2.2
    (by decide)).1

end Manju
